import Mathlib

/-!
Shallow embedding of the zaplytics progressive ingestion engine and its
aggregation pipeline, together with theorems checking the specification
claims against the code.

Sources embedded here:
  * src/types/zaplytics.ts  — the data model (ZapReceipt, ParsedZap, ...).
  * src/lib/zaplytics/utils.ts — validation, parsing and the pure
    aggregation functions (groupZapsByPeriod, groupZapsByKind,
    groupZapsByHour, groupZapsByDayOfWeek, analyzeZapperLoyalty,
    analyzeHashtagPerformance).
  * src/hooks/useZaplytics.ts — the pagination controller loadMoreZaps:
    batch sizing, relay-limit detection, cache merge, completion
    detection, and the failure path.

Modelling conventions: timestamps are Int (unix seconds), sat amounts are
Nat, JavaScript stable Array.prototype.sort is modelled by
List.insertionSort, the JavaScript Map with its insertion-order iteration
is modelled by an association list updated in place, and floating point
quotients that the code compares or returns are modelled in the rationals.
External library calls (the bolt11 decoder, JSON.parse of the description
tag, and the timezone-dependent Date getters) are taken as parameters.
-/

namespace Zaplytics

/-- A zap receipt event, src/types/zaplytics.ts ZapReceipt. The kind field
is an arbitrary Nat because the validator receives general events. -/
structure ZapReceipt where
  id : String
  created_at : Int
  pubkey : String
  kind : Nat
  tags : List (List String)
  content : String
  sig : String
  deriving DecidableEq, Repr

/-- The zapped event attached to a parsed zap, src/types/zaplytics.ts
ParsedZap.zappedEvent. -/
structure ZappedEvent where
  id : String
  kind : Nat
  author : String
  content : String
  created_at : Int
  deriving DecidableEq, Repr

/-- The zapper attached to a parsed zap, src/types/zaplytics.ts
ParsedZap.zapper. -/
structure Zapper where
  pubkey : String
  name : Option String
  nip05 : Option String
  picture : Option String
  deriving DecidableEq, Repr

/-- The embedded zap request, src/types/zaplytics.ts ParsedZap.zapRequest. -/
structure ZapRequest where
  pubkey : String
  content : String
  created_at : Int
  deriving DecidableEq, Repr

/-- A parsed zap, src/types/zaplytics.ts ParsedZap. -/
structure ParsedZap where
  receipt : ZapReceipt
  zappedEvent : Option ZappedEvent
  zapper : Zapper
  amount : Nat
  comment : Option String
  zapRequest : Option ZapRequest
  deriving DecidableEq, Repr

/-- tags.find(tag => tag[0] === name), as used throughout utils.ts. -/
def findTag (tags : List (List String)) (name : String) : Option (List String) :=
  tags.find? (fun t => t.head? = some name)

/-- The value slot of the first bolt11 tag of an event. -/
def bolt11Value (event : ZapReceipt) : Option String :=
  (findTag event.tags "bolt11").bind (fun t => t[1]?)

/-- isValidZapReceipt, src/lib/zaplytics/utils.ts lines 98 to 108. The
bolt11 decoder (parseBolt11Amount wrapping light-bolt11-decoder) is the
parameter decode; it returns the decoded sat amount, 0 on failure. -/
def isValidZapReceipt (decode : String → Nat) (event : ZapReceipt) : Bool :=
  if event.kind ≠ 9735 then false
  else
    match findTag event.tags "bolt11" with
    | none => false
    | some bolt11Tag =>
      match bolt11Tag[1]? with
      | none => false
      | some b => if b = "" then false else decide (0 < decode b)

/-- parseZapReceipt, src/lib/zaplytics/utils.ts lines 36 to 93. decode is
the bolt11 decoder; parseDesc models JSON.parse applied to the description
tag (returning none when JSON.parse throws). An absent or empty string
slot is falsy in the source and is treated as missing here. -/
def parseZapReceipt (decode : String → Nat) (parseDesc : String → Option ZapRequest)
    (zapEvent : ZapReceipt) : Option ParsedZap :=
  match findTag zapEvent.tags "bolt11" with
  | none => none
  | some bolt11Tag =>
    match bolt11Tag[1]? with
    | none => none
    | some b =>
      if b = "" then none
      else
        let amount := decode b
        if amount = 0 then none
        else
          let eTag := findTag zapEvent.tags "e"
          let pTag := findTag zapEvent.tags "p"
          let zapRequestDesc := findTag zapEvent.tags "description"
          let zapRequest : Option ZapRequest :=
            match zapRequestDesc with
            | some t =>
              match t[1]? with
              | some d => if d = "" then none else parseDesc d
              | none => none
            | none => none
          let comment : Option String :=
            match zapRequest with
            | some zr => if zr.content = "" then none else some zr.content
            | none => none
          let zapperPubkey : String :=
            match zapRequest with
            | some zr => if zr.pubkey = "" then zapEvent.pubkey else zr.pubkey
            | none => zapEvent.pubkey
          let zappedEvent : Option ZappedEvent :=
            match eTag with
            | some t =>
              match t[1]? with
              | some eid =>
                if eid = "" then none
                else some { id := eid, kind := 1,
                            author := ((pTag.bind (fun p => p[1]?)).getD ""),
                            content := "", created_at := 0 }
              | none => none
            | none => none
          some { receipt := zapEvent, zappedEvent := zappedEvent,
                 zapper := { pubkey := zapperPubkey, name := none,
                             nip05 := none, picture := none },
                 amount := amount, comment := comment, zapRequest := zapRequest }

/-! ZAP_FETCH_CONFIG, src/hooks/useZaplytics.ts lines 30 to 40. -/

def INITIAL_BATCH_SIZE : Nat := 1000

def MIN_BATCH_SIZE : Nat := 250

def MAX_BATCH_SIZE : Nat := 2000

def MAX_CONSECUTIVE_FAILURES : Nat := 3

def BOUNDARY_TOLERANCE_SECONDS : Int := 3600

/-- JavaScript x || d on an optional number: 0 and absent are falsy. -/
def orElseNum (x : Option Nat) (d : Nat) : Nat :=
  match x with
  | some v => if v = 0 then d else v
  | none => d

/-- Batch size computation of loadMoreZaps, src/hooks/useZaplytics.ts
lines 241 to 250: start from the detected relay limit (or the initial
size), cap at MAX_BATCH_SIZE, and for automatic batches after the first
additionally clamp to the detected relay limit (or MIN_BATCH_SIZE). -/
def nextBatchSize (relayLimit : Option Nat) (isAutomatic : Bool) (currentBatch : Nat) : Nat :=
  let batchSize := min (orElseNum relayLimit INITIAL_BATCH_SIZE) MAX_BATCH_SIZE
  if isAutomatic ∧ 0 < currentBatch then min batchSize (orElseNum relayLimit MIN_BATCH_SIZE)
  else batchSize

/-- Relay limit detection, src/hooks/useZaplytics.ts lines 311 to 313: a
short non-empty batch fixes the limit to max(received, MIN_BATCH_SIZE). -/
def detectRelayLimit (prevLimit : Option Nat) (validCount batchSize : Nat) : Option Nat :=
  if validCount < batchSize ∧ 0 < validCount then some (max validCount MIN_BATCH_SIZE)
  else prevLimit

/-- Stable descending sort by created_at: Array.prototype.sort with
comparator (a, b) => b.created_at - a.created_at. -/
def sortReceiptsDesc (l : List ZapReceipt) : List ZapReceipt :=
  l.insertionSort (fun a b => b.created_at ≤ a.created_at)

/-- Cache merge on a successful batch, src/hooks/useZaplytics.ts line 290:
allReceipts = [...prev.allReceiptsCache, ...validReceipts].sort(desc). -/
def mergeReceipts (cache validReceipts : List ZapReceipt) : List ZapReceipt :=
  sortReceiptsDesc (cache ++ validReceipts)

/-- Math.min over the created_at values of a non-empty list, with a
default for the empty list, as in the completion check of useZaplytics. -/
def oldestCreatedAt (l : List ZapReceipt) (dflt : Int) : Int :=
  match l.map (fun r => r.created_at) with
  | [] => dflt
  | t :: ts => ts.foldl min t

/-- Time-range filter applied to the merged cache, src/hooks/useZaplytics.ts
lines 300 to 308: custom ranges filter both ends, preset ranges only since. -/
def filterForWindow (isCustom : Bool) (since : Int) (winUntil : Option Int)
    (receipts : List ZapReceipt) : List ZapReceipt :=
  receipts.filter (fun r =>
    if isCustom ∧ winUntil.isSome then
      decide (since ≤ r.created_at) && decide (r.created_at ≤ winUntil.getD 0)
    else decide (since ≤ r.created_at))

/-- Completion decision on a successful batch, src/hooks/useZaplytics.ts
lines 316 to 360. isCustom is timeRange === custom; nowSec models
Date.now() / 1000, the fallback used when the cache is empty; cache is the
allReceiptsCache before the merge. -/
def batchMarksComplete (isCustom : Bool) (since nowSec : Int)
    (cache validReceipts : List ZapReceipt) : Bool :=
  if validReceipts.length = 0 then
    if ¬ isCustom then
      let oldestInCache := oldestCreatedAt cache nowSec
      decide (oldestInCache ≤ since + BOUNDARY_TOLERANCE_SECONDS)
    else true
  else if ¬ isCustom then
    decide (oldestCreatedAt validReceipts 0 ≤ since + BOUNDARY_TOLERANCE_SECONDS)
  else false

/-- The completion condition as the specification states it: a custom
window is complete exactly on a zero-result batch; a preset window is
complete when a zero-result batch finds the oldest cached receipt within
one hour of since, or a non-empty batch whose oldest new receipt is
within one hour of since. -/
def specCoverageComplete (isCustom : Bool) (since : Int)
    (cache validReceipts : List ZapReceipt) : Prop :=
  if isCustom then validReceipts = []
  else
    (validReceipts = [] ∧ cache ≠ [] ∧
      oldestCreatedAt cache 0 ≤ since + BOUNDARY_TOLERANCE_SECONDS) ∨
    (validReceipts ≠ [] ∧
      oldestCreatedAt validReceipts 0 ≤ since + BOUNDARY_TOLERANCE_SECONDS)

/-- The progressive loading state, src/hooks/useZaplytics.ts lines 55 to 66. -/
structure ZapLoadingState where
  receipts : List ZapReceipt
  isLoading : Bool
  isComplete : Bool
  currentBatch : Nat
  totalFetched : Nat
  relayLimit : Option Nat
  errorMsg : Option String
  autoLoadEnabled : Bool
  consecutiveFailures : Nat
  allReceiptsCache : List ZapReceipt
  deriving DecidableEq, Repr

/-- Entry guard of loadMoreZaps for a logged-in user, src/hooks/useZaplytics.ts
lines 190 to 206: refuse when already loading or complete, and refuse
automatic calls when auto-load is disabled or too many failures occurred. -/
def canStartLoad (isAutomatic : Bool) (s : ZapLoadingState) : Bool :=
  if s.isLoading ∨ s.isComplete then false
  else if isAutomatic ∧ (¬ s.autoLoadEnabled = true ∨ MAX_CONSECUTIVE_FAILURES ≤ s.consecutiveFailures) then false
  else true

/-- The setState at the start of a fetch, src/hooks/useZaplytics.ts line 216. -/
def startLoad (s : ZapLoadingState) : ZapLoadingState :=
  { s with isLoading := true, errorMsg := none }

/-- The catch branch of loadMoreZaps, src/hooks/useZaplytics.ts lines 435
to 448: record the error, bump the failure counter, and disable auto-load
when the counter reaches MAX_CONSECUTIVE_FAILURES. -/
def applyBatchFailure (s : ZapLoadingState) (msg : String) : ZapLoadingState :=
  { s with isLoading := false,
           errorMsg := some msg,
           consecutiveFailures := s.consecutiveFailures + 1,
           autoLoadEnabled := decide (s.consecutiveFailures + 1 < MAX_CONSECUTIVE_FAILURES) }

/-- The setState on a successful batch, src/hooks/useZaplytics.ts lines
288 to 384: merge the batch into the cache, refilter for the window,
detect the relay limit, decide completion, advance the batch counter and
reset the failure counter. -/
def applyBatchSuccess (isCustom : Bool) (since nowSec : Int) (winUntil : Option Int)
    (batchSize : Nat) (validReceipts : List ZapReceipt) (s : ZapLoadingState) :
    ZapLoadingState :=
  let allReceipts := mergeReceipts s.allReceiptsCache validReceipts
  let filtered := filterForWindow isCustom since winUntil allReceipts
  { s with receipts := filtered,
           allReceiptsCache := allReceipts,
           isLoading := false,
           isComplete := batchMarksComplete isCustom since nowSec s.allReceiptsCache validReceipts,
           currentBatch := s.currentBatch + 1,
           totalFetched := filtered.length,
           relayLimit := detectRelayLimit s.relayLimit validReceipts.length batchSize,
           consecutiveFailures := 0 }

/-- Math.round(a / b) for non-negative operands: round half toward
positive infinity. Used where the source computes Math.round of a mean. -/
def jsRound (a b : Nat) : Nat := (2 * a + b) / (2 * b)

/-- The grand total, src/hooks/useZaplytics.ts line 1017:
parsedZaps.reduce((sum, zap) => sum + zap.amount, 0). -/
def totalEarningsOf (zaps : List ParsedZap) : Nat :=
  zaps.foldl (fun sum zap => sum + zap.amount) 0

/-- One bucket of the period grouping, src/types/zaplytics.ts
EarningsByPeriod; the date is the epoch value of the bucket start. -/
structure EarningsByPeriod where
  period : String
  totalSats : Nat
  zapCount : Nat
  date : Int
  deriving DecidableEq, Repr

/-- One step of the grouped map of groupZapsByPeriod: Map.get with the
zero default, add the amount, bump the count; a fresh key is appended,
an existing key keeps its place and its first date. -/
def updatePeriod (key : String) (date : Int) (amount : Nat) :
    List (String × EarningsByPeriod) → List (String × EarningsByPeriod)
  | [] => [(key, { period := key, totalSats := amount, zapCount := 1, date := date })]
  | (k, acc) :: rest =>
    if k = key then
      (k, { acc with totalSats := acc.totalSats + amount, zapCount := acc.zapCount + 1 }) :: rest
    else (k, acc) :: updatePeriod key date amount rest

/-- groupZapsByPeriod, src/lib/zaplytics/utils.ts lines 136 to 197. The
period key and the bucket start date are computed from created_at through
timezone-dependent Date arithmetic; they are parameters periodKey and
periodDate covering every granularity (hour, day, week, month). -/
def groupZapsByPeriod (periodKey : Int → String) (periodDate : Int → Int)
    (zaps : List ParsedZap) : List EarningsByPeriod :=
  let grouped := zaps.foldl
    (fun acc zap =>
      updatePeriod (periodKey zap.receipt.created_at) (periodDate zap.receipt.created_at)
        zap.amount acc)
    []
  (grouped.map (fun kv => kv.2)).insertionSort (fun a b => a.date ≤ b.date)

/-- One bucket of the kind grouping, src/types/zaplytics.ts EarningsByKind
without the display name. -/
structure EarningsByKind where
  kind : Nat
  totalSats : Nat
  zapCount : Nat
  percent : ℚ
  deriving DecidableEq, Repr

/-- One step of the grouped map of groupZapsByKind. -/
def updateKind (kind : Nat) (amount : Nat) :
    List (Nat × Nat × Nat) → List (Nat × Nat × Nat)
  | [] => [(kind, amount, 1)]
  | (k, total, count) :: rest =>
    if k = kind then (k, total + amount, count + 1) :: rest
    else (k, total, count) :: updateKind kind amount rest

/-- groupZapsByKind, src/lib/zaplytics/utils.ts lines 232 to 255: the
grand total ranges over every zap, the per-kind sums only over zaps that
carry a zapped event, and the percentage guards a zero grand total. -/
def groupZapsByKind (zaps : List ParsedZap) : List EarningsByKind :=
  let totalSats : Nat := zaps.foldl (fun sum zap => sum + zap.amount) 0
  let grouped := zaps.foldl
    (fun acc zap =>
      match zap.zappedEvent with
      | none => acc
      | some ev => updateKind ev.kind zap.amount acc)
    []
  (grouped.map (fun kv =>
    { kind := kv.1, totalSats := kv.2.1, zapCount := kv.2.2,
      percent := if 0 < totalSats then ((kv.2.1 : ℚ) / (totalSats : ℚ)) * 100 else 0 })).insertionSort
    (fun a b => b.totalSats ≤ a.totalSats)

/-- One bucket of the hour-of-day grouping, src/types/zaplytics.ts
EarningsByHour. -/
structure EarningsByHour where
  hour : Nat
  totalSats : Nat
  zapCount : Nat
  avgZapAmount : Nat
  deriving DecidableEq, Repr

/-- One bucket of the day-of-week grouping, src/types/zaplytics.ts
EarningsByDayOfWeek without the display name. -/
structure EarningsByDayOfWeek where
  dayOfWeek : Nat
  totalSats : Nat
  zapCount : Nat
  avgZapAmount : Nat
  deriving DecidableEq, Repr

/-- The mutable Map of groupZapsByHour and groupZapsByDayOfWeek, keyed by
Fin n: all n buckets are initialised to zero and each zap bumps its own
bucket. hourOf models the timezone-dependent Date getter. -/
def finBuckets (n : Nat) (hourOf : Int → Fin n) (zaps : List ParsedZap) :
    Fin n → Nat × Nat :=
  zaps.foldl
    (fun m zap =>
      let h := hourOf zap.receipt.created_at
      fun h2 => if h2 = h then ((m h).1 + zap.amount, (m h).2 + 1) else m h2)
    (fun _ => (0, 0))

/-- groupZapsByHour, src/lib/zaplytics/utils.ts lines 330 to 354: 24
zero-initialised buckets, bumped per zap by the hour getter, materialised
in insertion order 0..23 and sorted ascending by hour. -/
def groupZapsByHour (hourOf : Int → Fin 24) (zaps : List ParsedZap) :
    List EarningsByHour :=
  let grouped := finBuckets 24 hourOf zaps
  ((List.finRange 24).map (fun hour =>
    { hour := hour.val, totalSats := (grouped hour).1, zapCount := (grouped hour).2,
      avgZapAmount :=
        if 0 < (grouped hour).2 then jsRound (grouped hour).1 (grouped hour).2 else 0 })).insertionSort
    (fun a b => a.hour ≤ b.hour)

/-- groupZapsByDayOfWeek, src/lib/zaplytics/utils.ts lines 359 to 385:
7 zero-initialised buckets, bumped per zap by the day getter, materialised
in insertion order 0..6 and sorted ascending by day. -/
def groupZapsByDayOfWeek (dayOf : Int → Fin 7) (zaps : List ParsedZap) :
    List EarningsByDayOfWeek :=
  let grouped := finBuckets 7 dayOf zaps
  ((List.finRange 7).map (fun day =>
    { dayOfWeek := day.val, totalSats := (grouped day).1, zapCount := (grouped day).2,
      avgZapAmount :=
        if 0 < (grouped day).2 then jsRound (grouped day).1 (grouped day).2 else 0 })).insertionSort
    (fun a b => a.dayOfWeek ≤ b.dayOfWeek)

/-- A loyalty category, src/types/zaplytics.ts ZapperLoyalty.category. -/
inductive LoyaltyCategory where
  | whale
  | regular
  | occasional
  | oneTime
  deriving DecidableEq, Repr

/-- One value of the zapperData Map of analyzeZapperLoyalty,
src/lib/zaplytics/utils.ts lines 391 to 417. -/
structure ZapperAcc where
  pubkey : String
  name : Option String
  picture : Option String
  zaps : List ParsedZap
  totalSats : Nat
  zapCount : Nat
  deriving DecidableEq, Repr

/-- One step of the zapperData Map: push the zap onto an existing entry
or append a fresh one, src/lib/zaplytics/utils.ts lines 401 to 417. -/
def updateZapper (zap : ParsedZap) : List ZapperAcc → List ZapperAcc
  | [] => [{ pubkey := zap.zapper.pubkey, name := zap.zapper.name,
             picture := zap.zapper.picture, zaps := [zap],
             totalSats := zap.amount, zapCount := 1 }]
  | acc :: rest =>
    if acc.pubkey = zap.zapper.pubkey then
      { acc with zaps := acc.zaps ++ [zap], totalSats := acc.totalSats + zap.amount,
                 zapCount := acc.zapCount + 1 } :: rest
    else acc :: updateZapper zap rest

/-- The zapperData Map built over the whole zap list, in insertion order. -/
def zapperGroups (zaps : List ParsedZap) : List ZapperAcc :=
  zaps.foldl (fun acc zap => updateZapper zap acc) []

/-- One row of the loyalty analysis, src/types/zaplytics.ts ZapperLoyalty;
dates are kept as unix seconds. -/
structure ZapperLoyalty where
  pubkey : String
  name : Option String
  picture : Option String
  zapCount : Nat
  totalSats : Nat
  firstZapDate : Int
  lastZapDate : Int
  daysBetweenFirstAndLast : Nat
  averageDaysBetweenZaps : ℚ
  isRegular : Bool
  category : LoyaltyCategory
  deriving DecidableEq, Repr

/-- The per-zapper body of analyzeZapperLoyalty, src/lib/zaplytics/utils.ts
lines 424 to 471: sort the zaps ascending by time, compute the day span
with Math.ceil, the mean gap, and classify. The Math.ceil of the
millisecond quotient equals the rounded-up quotient of whole seconds. -/
def zapperLoyaltyEntry (acc : ZapperAcc) : ZapperLoyalty :=
  let sortedZaps := acc.zaps.insertionSort
    (fun a b => a.receipt.created_at ≤ b.receipt.created_at)
  let firstZap : Int := ((sortedZaps.head?.map (fun z => z.receipt.created_at)).getD 0)
  let lastZap : Int := ((sortedZaps.getLast?.map (fun z => z.receipt.created_at)).getD 0)
  let daysBetweenFirstAndLast : Nat :=
    if 1 < acc.zapCount then ((lastZap - firstZap).toNat + 86399) / 86400 else 0
  let averageDaysBetweenZaps : ℚ :=
    if 1 < acc.zapCount then (daysBetweenFirstAndLast : ℚ) / ((acc.zapCount - 1 : Nat) : ℚ)
    else 0
  let category : LoyaltyCategory :=
    if acc.zapCount = 1 then .oneTime
    else if 10000 ≤ acc.totalSats then .whale
    else if 5 ≤ acc.zapCount ∨ (3 ≤ acc.zapCount ∧ averageDaysBetweenZaps ≤ 7) then .regular
    else .occasional
  { pubkey := acc.pubkey, name := acc.name, picture := acc.picture,
    zapCount := acc.zapCount, totalSats := acc.totalSats,
    firstZapDate := firstZap, lastZapDate := lastZap,
    daysBetweenFirstAndLast := daysBetweenFirstAndLast,
    averageDaysBetweenZaps := averageDaysBetweenZaps,
    isRegular := decide (¬ acc.zapCount = 1 ∧ ¬ 10000 ≤ acc.totalSats ∧
      (5 ≤ acc.zapCount ∨ (3 ≤ acc.zapCount ∧ averageDaysBetweenZaps ≤ 7))),
    category := category }

/-- The aggregate loyalty stats, src/types/zaplytics.ts LoyaltyStats. -/
structure LoyaltyStats where
  newZappers : Nat
  returningZappers : Nat
  regularSupporters : Nat
  averageLifetimeValue : Nat
  topLoyalZappers : List ZapperLoyalty
  deriving DecidableEq, Repr

/-- analyzeZapperLoyalty, src/lib/zaplytics/utils.ts lines 390 to 490:
group by zapper, classify every zapper, and count the one-time zappers as
new, the rest as returning, the regular branch as regular supporters; the
average lifetime value is the rounded quotient of the grand total by the
number of zappers. -/
def analyzeZapperLoyalty (zaps : List ParsedZap) : LoyaltyStats :=
  let groups := zapperGroups zaps
  let loyaltyAnalysis := groups.map zapperLoyaltyEntry
  let newZappers := loyaltyAnalysis.countP (fun e => e.zapCount = 1)
  let returningZappers := loyaltyAnalysis.countP (fun e => 1 < e.zapCount)
  let regularSupporters := loyaltyAnalysis.countP (fun e => e.category = .regular)
  let totalZappers := groups.length
  let totalSats : Nat := groups.foldl (fun sum z => sum + z.totalSats) 0
  let averageLifetimeValue := if 0 < totalZappers then jsRound totalSats totalZappers else 0
  let topLoyalZappers :=
    ((loyaltyAnalysis.filter (fun e => 1 < e.zapCount)).insertionSort
      (fun a b => b.totalSats ≤ a.totalSats)).take 10
  { newZappers := newZappers, returningZappers := returningZappers,
    regularSupporters := regularSupporters,
    averageLifetimeValue := averageLifetimeValue,
    topLoyalZappers := topLoyalZappers }

/-- A character of the hashtag regex class [a-zA-Z0-9_]. -/
def isWordChar (c : Char) : Bool := c.isAlpha || c.isDigit || c = '_'

/-- The scanner behind extractHashtags, src/lib/zaplytics/utils.ts lines
592 to 596: every non-overlapping match of #[a-zA-Z0-9_]+, lowercased, in
text order. The fuel argument makes the recursion structural; any fuel at
least the length of the input gives the scan of the whole input, because
every step consumes at least one character. -/
def scanHashtags : Nat → List Char → List String
  | 0, _ => []
  | _, [] => []
  | fuel + 1, c :: rest =>
    if c = '#' then
      let run := rest.takeWhile isWordChar
      if run.isEmpty then scanHashtags fuel rest
      else (String.mk ('#' :: run.map Char.toLower)) :: scanHashtags fuel (rest.drop run.length)
    else scanHashtags fuel rest

/-- extractHashtags, src/lib/zaplytics/utils.ts lines 592 to 596. -/
def extractHashtags (text : String) : List String :=
  scanHashtags text.data.length text.data

/-- One value of the hashtagData Map of analyzeHashtagPerformance,
src/lib/zaplytics/utils.ts lines 602 to 609. -/
structure TagAcc where
  totalSats : Nat
  zapCount : Nat
  posts : List String
  firstZapTimes : List Int
  contentCreatedTimes : List Int
  deriving DecidableEq, Repr

/-- Append an element unless it is already present: the behaviour of
Set.add and of Map.set with a fresh key, keeping insertion order. -/
def insertUnique {α : Type} [DecidableEq α] (l : List α) (a : α) : List α :=
  if a ∈ l then l else l ++ [a]

/-- Set.add on the posts set, keeping insertion order. -/
def addPost (posts : List String) (id : String) : List String :=
  insertUnique posts id

/-- One step of the hashtagData Map for one hashtag occurrence,
src/lib/zaplytics/utils.ts lines 628 to 646. -/
def updateTag (h : String) (amount : Nat) (zapTime : Int) (ev : ZappedEvent) :
    List (String × TagAcc) → List (String × TagAcc)
  | [] => [(h, { totalSats := amount, zapCount := 1, posts := [ev.id],
                 firstZapTimes := [zapTime], contentCreatedTimes := [ev.created_at] })]
  | (k, d) :: rest =>
    if k = h then
      (k, { totalSats := d.totalSats + amount, zapCount := d.zapCount + 1,
            posts := addPost d.posts ev.id,
            firstZapTimes := d.firstZapTimes ++ [zapTime],
            contentCreatedTimes := d.contentCreatedTimes ++ [ev.created_at] }) :: rest
    else (k, d) :: updateTag h amount zapTime ev rest

/-- The hashtagData Map built over the whole zap list: zaps without a
zapped event are skipped, every hashtag occurrence of the zapped content
body contributes once. The allPosts Map of the source is dead code and is
not modelled. -/
def hashtagData (zaps : List ParsedZap) : List (String × TagAcc) :=
  zaps.foldl
    (fun acc zap =>
      match zap.zappedEvent with
      | none => acc
      | some ev =>
        (extractHashtags ev.content).foldl
          (fun acc2 h => updateTag h zap.amount zap.receipt.created_at ev acc2) acc)
    []

/-- One row of the hashtag analysis, src/types/zaplytics.ts
HashtagPerformance. -/
structure HashtagPerformance where
  hashtag : String
  totalSats : Nat
  zapCount : Nat
  avgZapAmount : Nat
  postCount : Nat
  successRate : Nat
  avgTimeToFirstZap : ℚ
  deriving DecidableEq, Repr

/-- The per-tag output row of analyzeHashtagPerformance,
src/lib/zaplytics/utils.ts lines 652 to 678: the average time to first
zap pairs the pushed zap times with the pushed creation times. -/
def hashtagRow (kd : String × TagAcc) : HashtagPerformance :=
  let d := kd.2
  let timeToFirstZaps := List.zipWith
    (fun zapTime created => max 0 (zapTime - created))
    d.firstZapTimes d.contentCreatedTimes
  let avgTimeToFirstZap : ℚ :=
    if 0 < timeToFirstZaps.length then
      ((timeToFirstZaps.foldl (fun sum t => sum + t) 0 : Int) : ℚ) /
        (timeToFirstZaps.length : ℚ)
    else 0
  { hashtag := kd.1, totalSats := d.totalSats, zapCount := d.zapCount,
    avgZapAmount := if 0 < d.zapCount then jsRound d.totalSats d.zapCount else 0,
    postCount := d.posts.length, successRate := 100,
    avgTimeToFirstZap := avgTimeToFirstZap }

/-- analyzeHashtagPerformance, src/lib/zaplytics/utils.ts lines 601 to
683: aggregate per hashtag occurrence, average the per-occurrence
Math.max(0, zapTime - createdTime) deltas, keep hashtags with zapCount at
least 2, and sort descending by total. -/
def analyzeHashtagPerformance (zaps : List ParsedZap) : List HashtagPerformance :=
  let rows := (hashtagData zaps).map hashtagRow
  (rows.filter (fun h => 2 ≤ h.zapCount)).insertionSort
    (fun a b => b.totalSats ≤ a.totalSats)

/-! Specification-side definitions used to state the claims, written from
the words of the specification, and concrete fixtures for witnesses and
counterexamples. -/

/-- The fresh zapperData entry for a first zap of a pubkey. -/
def freshZapper (zap : ParsedZap) : ZapperAcc :=
  { pubkey := zap.zapper.pubkey, name := zap.zapper.name,
    picture := zap.zapper.picture, zaps := [zap],
    totalSats := zap.amount, zapCount := 1 }

/-- The bump applied to an existing zapperData entry. -/
def bumpZapper (acc : ZapperAcc) (zap : ParsedZap) : ZapperAcc :=
  { acc with zaps := acc.zaps ++ [zap], totalSats := acc.totalSats + zap.amount,
             zapCount := acc.zapCount + 1 }

/-- Lookup of a zapperData entry by pubkey, first match. -/
def lookupZapper (pk : String) (acc : List ZapperAcc) : Option ZapperAcc :=
  acc.find? (fun g => g.pubkey = pk)

/-- The empty hashtagData accumulator. -/
def emptyTagAcc : TagAcc :=
  { totalSats := 0, zapCount := 0, posts := [], firstZapTimes := [],
    contentCreatedTimes := [] }

/-- The bump applied to a hashtagData entry for one occurrence. -/
def bumpTag (amount : Nat) (zapTime : Int) (ev : ZappedEvent) (d : TagAcc) : TagAcc :=
  { totalSats := d.totalSats + amount, zapCount := d.zapCount + 1,
    posts := addPost d.posts ev.id,
    firstZapTimes := d.firstZapTimes ++ [zapTime],
    contentCreatedTimes := d.contentCreatedTimes ++ [ev.created_at] }

/-- n-fold bump of a hashtagData entry. -/
def bumpTagN (amount : Nat) (zapTime : Int) (ev : ZappedEvent) : Nat → TagAcc → TagAcc
  | 0, d => d
  | n + 1, d => bumpTag amount zapTime ev (bumpTagN amount zapTime ev n d)

/-- Lookup of a hashtagData entry, first match. -/
def lookupTag (t : String) (acc : List (String × TagAcc)) : Option TagAcc :=
  (acc.find? (fun kd => kd.1 = t)).map (fun kd => kd.2)

/-- Number of occurrences of the tag t in the body of the content zapped
by one zap; 0 when the zap references no content. -/
def tagOccurrencesOfZap (t : String) (z : ParsedZap) : Nat :=
  match z.zappedEvent with
  | some ev => (extractHashtags ev.content).count t
  | none => 0

/-- Total number of (record, occurrence) contributions for the tag t. -/
def occCount (t : String) (zaps : List ParsedZap) : Nat :=
  (zaps.map (fun z => tagOccurrencesOfZap t z)).sum

/-- Sats contributed to the tag t, one amount per occurrence. -/
def occSats (t : String) (zaps : List ParsedZap) : Nat :=
  (zaps.map (fun z => tagOccurrencesOfZap t z * z.amount)).sum

/-- Engagement delay contributed to the tag t, one Math.max(0, zapTime -
createdTime) per occurrence. -/
def occDelaySum (t : String) (zaps : List ParsedZap) : Int :=
  (zaps.map (fun z =>
    match z.zappedEvent with
    | some ev => (tagOccurrencesOfZap t z : Int) * max 0 (z.receipt.created_at - ev.created_at)
    | none => 0)).sum

/-- The zap times pushed for the tag t, one per occurrence, in order. -/
def tagZapTimes (t : String) (zaps : List ParsedZap) : List Int :=
  zaps.flatMap (fun z =>
    match z.zappedEvent with
    | some ev => List.replicate ((extractHashtags ev.content).count t) z.receipt.created_at
    | none => [])

/-- The content creation times pushed for the tag t, aligned with
tagZapTimes. -/
def tagCreatedTimes (t : String) (zaps : List ParsedZap) : List Int :=
  zaps.flatMap (fun z =>
    match z.zappedEvent with
    | some ev => List.replicate ((extractHashtags ev.content).count t) ev.created_at
    | none => [])

/-- The ids of the contents that mention the tag t, one per referencing
zap, in zap order and with repetitions. -/
def tagPostIds (t : String) (zaps : List ParsedZap) : List String :=
  zaps.filterMap (fun z =>
    z.zappedEvent.bind (fun ev =>
      if 0 < (extractHashtags ev.content).count t then some ev.id else none))

/-- The UTC hour getter used to instantiate the abstract Date.getHours. -/
def utcHour (t : Int) : Fin 24 := ⟨t.toNat / 3600 % 24, by omega⟩

/-- The UTC day getter used to instantiate the abstract Date.getDay. -/
def utcDay (t : Int) : Fin 7 := ⟨(t.toNat / 86400 + 4) % 7, by omega⟩

/-- A minimal zap receipt fixture. -/
def sampleReceipt : ZapReceipt :=
  { id := "a", created_at := 100, pubkey := "p", kind := 9735,
    tags := [], content := "", sig := "" }

/-- A parsed zap fixture. -/
def mkZap (id : String) (t : Int) (amt : Nat) (pk : String)
    (ev : Option ZappedEvent) : ParsedZap :=
  { receipt := { id := id, created_at := t, pubkey := pk, kind := 9735,
                 tags := [], content := "", sig := "" },
    zappedEvent := ev,
    zapper := { pubkey := pk, name := none, nip05 := none, picture := none },
    amount := amt, comment := none, zapRequest := none }

/-- A zapped content fixture carrying a body. -/
def mkEvent (id : String) (body : String) (t : Int) : ZappedEvent :=
  { id := id, kind := 1, author := "auth", content := body, created_at := t }

/-! Theorems. One main theorem per claim, with helper lemmas shared
between proofs, witnesses for theorems with hypotheses, and closed
counterexamples for the corrected claims. -/

/-- C10: the validator accepts exactly the events of kind 9735 carrying a
bolt11 tag with a non-empty value that decodes to a positive amount; the
parser succeeds on every accepted event with the decoded amount, and
returns none only when the bolt11 value is absent, empty, or decodes
to 0. -/
theorem validator_parser_spec (decode : String → Nat)
    (parseDesc : String → Option ZapRequest) (e : ZapReceipt) :
    (isValidZapReceipt decode e = true ↔
      e.kind = 9735 ∧ ∃ b, bolt11Value e = some b ∧ b ≠ "" ∧ 0 < decode b) ∧
    (isValidZapReceipt decode e = true →
      ∃ b pz, bolt11Value e = some b ∧
        parseZapReceipt decode parseDesc e = some pz ∧ pz.amount = decode b) ∧
    (parseZapReceipt decode parseDesc e = none →
      bolt11Value e = none ∨ bolt11Value e = some "" ∨
        ∃ b, bolt11Value e = some b ∧ decode b = 0) := by
  unfold isValidZapReceipt parseZapReceipt bolt11Value
  cases hbt : findTag e.tags "bolt11" with
  | none => simp [hbt]
  | some t =>
    cases hv : t[1]? with
    | none => simp [hbt, hv]
    | some b =>
      by_cases hbe : b = ""
      · simp [hbt, hv, hbe]
      · by_cases hd : decode b = 0
        · simp [hbt, hv, hbe, hd]
        · by_cases hk : e.kind = 9735
          · simp [hbt, hv, hbe, hd, hk, Nat.pos_of_ne_zero]
          · simp [hbt, hv, hbe, hd, hk]

/-- C10 witness: a concrete valid receipt is accepted and parsed with the
decoded amount. -/
theorem validator_parser_spec_witness :
    isValidZapReceipt (fun _ => 21)
      { sampleReceipt with tags := [["bolt11", "lnbc1"]] } = true ∧
    ∃ pz, parseZapReceipt (fun _ => 21) (fun _ => none)
        { sampleReceipt with tags := [["bolt11", "lnbc1"]] } = some pz ∧
      pz.amount = 21 := by
  have h := validator_parser_spec (fun _ => 21) (fun _ => none)
    { sampleReceipt with tags := [["bolt11", "lnbc1"]] }
  have hv : isValidZapReceipt (fun _ => 21)
      { sampleReceipt with tags := [["bolt11", "lnbc1"]] } = true := by decide
  refine ⟨hv, ?_⟩
  obtain ⟨b, pz, _, hp, ha⟩ := h.2.1 hv
  exact ⟨pz, hp, ha⟩

/-- C2 counterexample: the merge is a plain concatenation followed by a
re-sort, so merging the same one-element batch twice duplicates the
record and its id, refuting idempotence and the no-duplicate-id
invariant. -/
theorem mergeReceipts_counterexample :
    mergeReceipts (mergeReceipts [] [sampleReceipt]) [sampleReceipt] ≠
      mergeReceipts [] [sampleReceipt] ∧
    ¬ ((mergeReceipts (mergeReceipts [] [sampleReceipt]) [sampleReceipt]).map
        (fun r => r.id)).Nodup := by
  decide

/-- C2 amended: the merge appends the batch to the store and re-sorts
descending by created_at: the result is a permutation of the
concatenation, its length is the sum of the lengths (hence the record
count is monotonically non-decreasing and duplicates are kept, not
collapsed), and an empty batch leaves the record multiset unchanged. -/
theorem mergeReceipts_spec (cache validReceipts : List ZapReceipt) :
    (mergeReceipts cache validReceipts).length =
      cache.length + validReceipts.length ∧
    cache.length ≤ (mergeReceipts cache validReceipts).length ∧
    (mergeReceipts cache validReceipts).Perm (cache ++ validReceipts) ∧
    (mergeReceipts cache []).Perm cache ∧
    (mergeReceipts cache validReceipts).Sorted
      (fun a b => b.created_at ≤ a.created_at) := by
  have hperm : ∀ l : List ZapReceipt, (sortReceiptsDesc l).Perm l := fun l =>
    List.perm_insertionSort _ l
  refine ⟨?_, ?_, ?_, ?_, ?_⟩
  · simpa [mergeReceipts] using ((hperm (cache ++ validReceipts)).length_eq.trans
      (List.length_append ..))
  · calc cache.length ≤ cache.length + validReceipts.length := Nat.le_add_right ..
      _ = (mergeReceipts cache validReceipts).length := by
        simpa [mergeReceipts] using ((hperm (cache ++ validReceipts)).length_eq.trans
          (List.length_append ..)).symm
  · exact hperm (cache ++ validReceipts)
  · show (sortReceiptsDesc (cache ++ [])).Perm cache
    rw [List.append_nil]
    exact hperm cache
  · have : IsTotal ZapReceipt (fun a b => b.created_at ≤ a.created_at) :=
      ⟨fun a b => Int.le_total b.created_at a.created_at⟩
    have : IsTrans ZapReceipt (fun a b => b.created_at ≤ a.created_at) :=
      ⟨fun _ _ _ h1 h2 => le_trans h2 h1⟩
    exact List.sorted_insertionSort _ _

/-- Evaluation of the JavaScript or-default on a present value. -/
theorem orElseNum_some (v d : Nat) : orElseNum (some v) d = if v = 0 then d else v := rfl

/-- Evaluation of the JavaScript or-default on an absent value. -/
theorem orElseNum_none (d : Nat) : orElseNum none d = d := rfl

/-- C5 counterexample: a zero-result short page does not set the detected
limit, and an automatic non-first batch with a detected limit of 600 uses
600, not min 600 250: the additional clamp falls back to 250 only when no
limit has been detected. -/
theorem batchSizing_counterexample :
    detectRelayLimit none 0 1000 = none ∧
    detectRelayLimit none 0 1000 ≠ some (max 0 MIN_BATCH_SIZE) ∧
    nextBatchSize (some 600) true 1 = 600 ∧
    nextBatchSize (some 600) true 1 ≠ min 600 250 := by
  decide

/-- C5 amended: a short non-empty page fixes the detected limit to
max(received, MIN_BATCH_SIZE) while a zero-result or full page leaves it
unchanged; once a limit is detected every request, automatic or manual,
uses the detected limit capped at MAX_BATCH_SIZE; while no limit is
detected, automatic batches after the first use MIN_BATCH_SIZE and every
other request uses INITIAL_BATCH_SIZE. -/
theorem batchSizing_spec (prevLimit : Option Nat) (received requested : Nat)
    (isAutomatic : Bool) (currentBatch : Nat) (L : Nat) :
    (0 < received → received < requested →
      detectRelayLimit prevLimit received requested =
        some (max received MIN_BATCH_SIZE)) ∧
    (received = 0 ∨ requested ≤ received →
      detectRelayLimit prevLimit received requested = prevLimit) ∧
    (0 < L → nextBatchSize (some L) isAutomatic currentBatch = min L MAX_BATCH_SIZE) ∧
    (nextBatchSize none isAutomatic currentBatch =
      if isAutomatic ∧ 0 < currentBatch then MIN_BATCH_SIZE
      else INITIAL_BATCH_SIZE) := by
  refine ⟨?_, ?_, ?_, ?_⟩
  · intro h1 h2
    simp [detectRelayLimit, h1, h2]
  · intro h
    have hno : ¬ (received < requested ∧ 0 < received) := by omega
    simp [detectRelayLimit, hno]
  · intro hL
    have hLz : ¬ L = 0 := by omega
    simp only [nextBatchSize, orElseNum_some, hLz, if_false]
    split
    · exact Nat.min_eq_left (Nat.min_le_left ..)
    · rfl
  · simp only [nextBatchSize, orElseNum_none]
    split <;> decide

/-- C5 witness: at the concrete short page 600 of 1000 the limit becomes
600 and a later manual batch requests 600. -/
theorem batchSizing_spec_witness :
    detectRelayLimit none 600 1000 = some 600 ∧
    nextBatchSize (some 600) false 3 = 600 := by
  have h := batchSizing_spec none 600 1000 false 3 600
  constructor
  · have h1 := h.1 (by decide) (by decide)
    simpa using h1
  · have h3 := h.2.2.1 (by decide)
    simpa using h3

/-- C6: a failed fetch increments the consecutive-failure counter by one
and leaves the raw record store and the window view unchanged; after the
failure an automatic load is permitted exactly while the window is
incomplete and the counter is still below MAX_CONSECUTIVE_FAILURES,
while a manual load is permitted exactly while the window is incomplete;
a successful fetch resets the counter to zero and advances the batch
count by one. -/
theorem failure_success_spec (s : ZapLoadingState) (msg : String)
    (isCustom : Bool) (since nowSec : Int) (winUntil : Option Int)
    (batchSize : Nat) (validReceipts : List ZapReceipt) :
    (applyBatchFailure (startLoad s) msg).consecutiveFailures =
      s.consecutiveFailures + 1 ∧
    (applyBatchFailure (startLoad s) msg).allReceiptsCache = s.allReceiptsCache ∧
    (applyBatchFailure (startLoad s) msg).receipts = s.receipts ∧
    canStartLoad true (applyBatchFailure (startLoad s) msg) =
      (!s.isComplete &&
        decide (s.consecutiveFailures + 1 < MAX_CONSECUTIVE_FAILURES)) ∧
    canStartLoad false (applyBatchFailure (startLoad s) msg) = !s.isComplete ∧
    (applyBatchSuccess isCustom since nowSec winUntil batchSize validReceipts
        (startLoad s)).consecutiveFailures = 0 ∧
    (applyBatchSuccess isCustom since nowSec winUntil batchSize validReceipts
        (startLoad s)).currentBatch = s.currentBatch + 1 := by
  refine ⟨rfl, rfl, rfl, ?_, ?_, rfl, rfl⟩
  · unfold canStartLoad applyBatchFailure startLoad
    cases hc : s.isComplete <;>
      by_cases hf : s.consecutiveFailures + 1 < 3 <;>
      simp [hc, hf, MAX_CONSECUTIVE_FAILURES] <;> omega
  · unfold canStartLoad applyBatchFailure startLoad
    cases hc : s.isComplete <;> simp [hc]

/-- C6 witness: the equations evaluated at a concrete state two failures
deep: the third failure takes the counter to the threshold and blocks the
automatic path while the manual path stays open. -/
theorem failure_success_spec_witness :
    (applyBatchFailure (startLoad
      { receipts := [], isLoading := false, isComplete := false,
        currentBatch := 4, totalFetched := 0, relayLimit := none,
        errorMsg := none, autoLoadEnabled := true, consecutiveFailures := 2,
        allReceiptsCache := [sampleReceipt] }) "timeout").consecutiveFailures = 3 ∧
    canStartLoad true (applyBatchFailure (startLoad
      { receipts := [], isLoading := false, isComplete := false,
        currentBatch := 4, totalFetched := 0, relayLimit := none,
        errorMsg := none, autoLoadEnabled := true, consecutiveFailures := 2,
        allReceiptsCache := [sampleReceipt] }) "timeout") = false ∧
    canStartLoad false (applyBatchFailure (startLoad
      { receipts := [], isLoading := false, isComplete := false,
        currentBatch := 4, totalFetched := 0, relayLimit := none,
        errorMsg := none, autoLoadEnabled := true, consecutiveFailures := 2,
        allReceiptsCache := [sampleReceipt] }) "timeout") = true := by
  have h := failure_success_spec
    { receipts := [], isLoading := false, isComplete := false,
      currentBatch := 4, totalFetched := 0, relayLimit := none,
      errorMsg := none, autoLoadEnabled := true, consecutiveFailures := 2,
      allReceiptsCache := [sampleReceipt] } "timeout" false 0 0 none 0 []
  refine ⟨h.1, ?_, ?_⟩
  · rw [h.2.2.2.1]
    decide
  · rw [h.2.2.2.2.1]
    decide

/-- C1: a successful fetch stores exactly the computed completion flag,
and under any real clock (the window since is more than the one-hour
tolerance in the past, as every preset range is) the computed flag agrees
exactly with the completion policy of the specification: a custom window
completes exactly on a zero-result batch, a preset window completes
exactly when a zero-result batch finds the oldest cached receipt within
one hour of since or a non-empty batch has its oldest new receipt within
one hour of since. -/
theorem loadMoreZaps_completion_spec (isCustom : Bool) (since nowSec : Int)
    (winUntil : Option Int) (batchSize : Nat)
    (cache validReceipts : List ZapReceipt) (s : ZapLoadingState)
    (hnow : since + BOUNDARY_TOLERANCE_SECONDS < nowSec) :
    ((applyBatchSuccess isCustom since nowSec winUntil batchSize validReceipts s).isComplete
      = batchMarksComplete isCustom since nowSec s.allReceiptsCache validReceipts) ∧
    (batchMarksComplete isCustom since nowSec cache validReceipts = true ↔
      specCoverageComplete isCustom since cache validReceipts) := by
  refine ⟨rfl, ?_⟩
  unfold batchMarksComplete specCoverageComplete
  cases isCustom with
  | true =>
    cases validReceipts with
    | nil => simp
    | cons v vs => simp
  | false =>
    cases validReceipts with
    | nil =>
      cases cache with
      | nil =>
        simp [oldestCreatedAt]
        omega
      | cons c cs =>
        simp [oldestCreatedAt]
    | cons v vs =>
      simp [oldestCreatedAt]

/-- C1 witness, the completion-detection scenario of the specification:
records reaching down to T = 1000000, a window with since half an hour
before T completes on a non-empty batch without an extra empty round
trip, while since five hours before T does not; an empty batch against a
cache reaching T completes the first window and not the second. -/
theorem loadMoreZaps_completion_spec_witness :
    ((1000000 - 1800 : Int) + BOUNDARY_TOLERANCE_SECONDS < 2000000 ∧
      (batchMarksComplete false (1000000 - 1800) 2000000 []
        [{ sampleReceipt with created_at := 1000000 }] = true ↔
        specCoverageComplete false (1000000 - 1800) []
          [{ sampleReceipt with created_at := 1000000 }])) ∧
    batchMarksComplete false (1000000 - 1800) 2000000 []
      [{ sampleReceipt with created_at := 1000000 }] = true ∧
    batchMarksComplete false (1000000 - 18000) 2000000 []
      [{ sampleReceipt with created_at := 1000000 }] = false ∧
    batchMarksComplete false (1000000 - 1800) 2000000
      [{ sampleReceipt with created_at := 1000000 }] [] = true ∧
    batchMarksComplete false (1000000 - 18000) 2000000
      [{ sampleReceipt with created_at := 1000000 }] [] = false := by
  refine ⟨⟨by decide, ?_⟩, by decide, by decide, by decide, by decide⟩
  exact (loadMoreZaps_completion_spec false (1000000 - 1800) 2000000 none 0 []
    [{ sampleReceipt with created_at := 1000000 }]
    { receipts := [], isLoading := true, isComplete := false, currentBatch := 0,
      totalFetched := 0, relayLimit := none, errorMsg := none,
      autoLoadEnabled := true, consecutiveFailures := 0,
      allReceiptsCache := [] } (by decide)).2

/-- Unfolding the running reduce of amounts into a mapped sum. -/
theorem foldl_add_amount (zaps : List ParsedZap) (n : Nat) :
    zaps.foldl (fun sum zap => sum + zap.amount) n =
      n + (zaps.map (fun z => z.amount)).sum := by
  induction zaps generalizing n with
  | nil => simp
  | cons z zs ih => simp [List.foldl_cons, ih]; omega

/-- The grand total is the sum of the individual amounts. -/
theorem totalEarningsOf_eq_sum (zaps : List ParsedZap) :
    totalEarningsOf zaps = (zaps.map (fun z => z.amount)).sum := by
  simpa [totalEarningsOf] using foldl_add_amount zaps 0

/-- One period-map update adds exactly the amount of the zap to the sum
of the bucket totals. -/
theorem sum_totalSats_updatePeriod (key : String) (date : Int) (amount : Nat)
    (l : List (String × EarningsByPeriod)) :
    ((updatePeriod key date amount l).map (fun kv => kv.2.totalSats)).sum =
      (l.map (fun kv => kv.2.totalSats)).sum + amount := by
  induction l with
  | nil => simp [updatePeriod]
  | cons kv rest ih =>
    obtain ⟨k, acc⟩ := kv
    by_cases hk : k = key
    · simp [updatePeriod, hk]
      omega
    · simp [updatePeriod, hk, ih]
      omega

/-- Folding the period map over a zap list adds the total amount of the
list to the sum of the bucket totals. -/
theorem sum_totalSats_foldPeriod (periodKey : Int → String) (periodDate : Int → Int)
    (zaps : List ParsedZap) (acc : List (String × EarningsByPeriod)) :
    ((zaps.foldl
        (fun acc zap =>
          updatePeriod (periodKey zap.receipt.created_at)
            (periodDate zap.receipt.created_at) zap.amount acc)
        acc).map (fun kv => kv.2.totalSats)).sum =
      (acc.map (fun kv => kv.2.totalSats)).sum +
        (zaps.map (fun z => z.amount)).sum := by
  induction zaps generalizing acc with
  | nil => simp
  | cons z zs ih =>
    simp only [List.foldl_cons, List.map_cons, List.sum_cons]
    rw [ih, sum_totalSats_updatePeriod]
    omega

/-- C3: the grand total of the analytic snapshot is the sum of the
individual parsed amounts, and for every period key and bucket-start
derivation (so for every granularity hour, day, week or month) the
bucket totals of groupZapsByPeriod sum to that same grand total. -/
theorem grandTotal_period_spec (periodKey : Int → String) (periodDate : Int → Int)
    (zaps : List ParsedZap) :
    totalEarningsOf zaps = (zaps.map (fun z => z.amount)).sum ∧
    ((groupZapsByPeriod periodKey periodDate zaps).map
      (fun e => e.totalSats)).sum = totalEarningsOf zaps := by
  refine ⟨totalEarningsOf_eq_sum zaps, ?_⟩
  unfold groupZapsByPeriod
  have hperm := List.perm_insertionSort
    (fun a b : EarningsByPeriod => a.date ≤ b.date)
    ((zaps.foldl
        (fun acc zap =>
          updatePeriod (periodKey zap.receipt.created_at)
            (periodDate zap.receipt.created_at) zap.amount acc)
        []).map (fun kv => kv.2))
  rw [(hperm.map (fun e => e.totalSats)).sum_eq]
  rw [List.map_map]
  have := sum_totalSats_foldPeriod periodKey periodDate zaps []
  simpa [totalEarningsOf_eq_sum] using this

/-- Pointwise value of the bucket fold from an arbitrary start map. -/
theorem foldl_finBuckets (n : Nat) (hourOf : Int → Fin n) (zaps : List ParsedZap)
    (m : Fin n → Nat × Nat) (h : Fin n) :
    (zaps.foldl
      (fun m zap =>
        let hz := hourOf zap.receipt.created_at
        fun h2 => if h2 = hz then ((m hz).1 + zap.amount, (m hz).2 + 1) else m h2)
      m) h =
      ((m h).1 + ((zaps.filter (fun z => hourOf z.receipt.created_at = h)).map
          (fun z => z.amount)).sum,
        (m h).2 + (zaps.filter (fun z => hourOf z.receipt.created_at = h)).length) := by
  induction zaps generalizing m with
  | nil => simp
  | cons z zs ih =>
    simp only [List.foldl_cons]
    rw [ih]
    by_cases hz : hourOf z.receipt.created_at = h
    · simp [hz, List.filter_cons]
      omega
    · have hz2 : ¬ (h = hourOf z.receipt.created_at) := fun he => hz he.symm
      simp [hz, hz2, List.filter_cons]

/-- The bucket map evaluated from the zero map. -/
theorem finBuckets_eq (n : Nat) (hourOf : Int → Fin n) (zaps : List ParsedZap)
    (h : Fin n) :
    finBuckets n hourOf zaps h =
      (((zaps.filter (fun z => hourOf z.receipt.created_at = h)).map
          (fun z => z.amount)).sum,
        (zaps.filter (fun z => hourOf z.receipt.created_at = h)).length) := by
  unfold finBuckets
  simpa using foldl_finBuckets n hourOf zaps (fun _ => (0, 0)) h

/-- C7 amended: for every list (the empty list included) the hour-of-day
grouping is exactly the 24 buckets 0..23 in ascending order, each present
with the amount sum and count of its zaps (0 and 0 when empty) and the
rounded mean Math.round(total / count) when the count is positive and 0
otherwise; the day-of-week grouping is likewise exactly the 7 buckets
0..6. -/
theorem temporal_buckets_spec (hourOf : Int → Fin 24) (dayOf : Int → Fin 7)
    (zaps : List ParsedZap) :
    groupZapsByHour hourOf zaps = (List.finRange 24).map (fun h =>
      { hour := h.val,
        totalSats := ((zaps.filter (fun z => hourOf z.receipt.created_at = h)).map
          (fun z => z.amount)).sum,
        zapCount := (zaps.filter (fun z => hourOf z.receipt.created_at = h)).length,
        avgZapAmount :=
          if 0 < (zaps.filter (fun z => hourOf z.receipt.created_at = h)).length then
            jsRound (((zaps.filter (fun z => hourOf z.receipt.created_at = h)).map
              (fun z => z.amount)).sum)
              ((zaps.filter (fun z => hourOf z.receipt.created_at = h)).length)
          else 0 }) ∧
    (groupZapsByHour hourOf zaps).length = 24 ∧
    groupZapsByDayOfWeek dayOf zaps = (List.finRange 7).map (fun d =>
      { dayOfWeek := d.val,
        totalSats := ((zaps.filter (fun z => dayOf z.receipt.created_at = d)).map
          (fun z => z.amount)).sum,
        zapCount := (zaps.filter (fun z => dayOf z.receipt.created_at = d)).length,
        avgZapAmount :=
          if 0 < (zaps.filter (fun z => dayOf z.receipt.created_at = d)).length then
            jsRound (((zaps.filter (fun z => dayOf z.receipt.created_at = d)).map
              (fun z => z.amount)).sum)
              ((zaps.filter (fun z => dayOf z.receipt.created_at = d)).length)
          else 0 }) ∧
    (groupZapsByDayOfWeek dayOf zaps).length = 7 := by
  have hhour : groupZapsByHour hourOf zaps = (List.finRange 24).map (fun h =>
      { hour := h.val,
        totalSats := ((zaps.filter (fun z => hourOf z.receipt.created_at = h)).map
          (fun z => z.amount)).sum,
        zapCount := (zaps.filter (fun z => hourOf z.receipt.created_at = h)).length,
        avgZapAmount :=
          if 0 < (zaps.filter (fun z => hourOf z.receipt.created_at = h)).length then
            jsRound (((zaps.filter (fun z => hourOf z.receipt.created_at = h)).map
              (fun z => z.amount)).sum)
              ((zaps.filter (fun z => hourOf z.receipt.created_at = h)).length)
          else 0 }) := by
    unfold groupZapsByHour
    have hsorted : ((List.finRange 24).map (fun hour =>
        ({ hour := hour.val, totalSats := (finBuckets 24 hourOf zaps hour).1,
           zapCount := (finBuckets 24 hourOf zaps hour).2,
           avgZapAmount :=
             if 0 < (finBuckets 24 hourOf zaps hour).2 then
               jsRound (finBuckets 24 hourOf zaps hour).1
                 (finBuckets 24 hourOf zaps hour).2
             else 0 } : EarningsByHour))).Sorted
          (fun a b => a.hour ≤ b.hour) :=
      (List.pairwise_lt_finRange 24).map _
        (fun a b hab => le_of_lt (by simpa using hab))
    rw [List.Sorted.insertionSort_eq hsorted]
    refine List.map_congr_left (fun h _ => ?_)
    rw [finBuckets_eq]
  have hday : groupZapsByDayOfWeek dayOf zaps = (List.finRange 7).map (fun d =>
      { dayOfWeek := d.val,
        totalSats := ((zaps.filter (fun z => dayOf z.receipt.created_at = d)).map
          (fun z => z.amount)).sum,
        zapCount := (zaps.filter (fun z => dayOf z.receipt.created_at = d)).length,
        avgZapAmount :=
          if 0 < (zaps.filter (fun z => dayOf z.receipt.created_at = d)).length then
            jsRound (((zaps.filter (fun z => dayOf z.receipt.created_at = d)).map
              (fun z => z.amount)).sum)
              ((zaps.filter (fun z => dayOf z.receipt.created_at = d)).length)
          else 0 }) := by
    unfold groupZapsByDayOfWeek
    have hsorted : ((List.finRange 7).map (fun day =>
        ({ dayOfWeek := day.val, totalSats := (finBuckets 7 dayOf zaps day).1,
           zapCount := (finBuckets 7 dayOf zaps day).2,
           avgZapAmount :=
             if 0 < (finBuckets 7 dayOf zaps day).2 then
               jsRound (finBuckets 7 dayOf zaps day).1
                 (finBuckets 7 dayOf zaps day).2
             else 0 } : EarningsByDayOfWeek))).Sorted
          (fun a b => a.dayOfWeek ≤ b.dayOfWeek) :=
      (List.pairwise_lt_finRange 7).map _
        (fun a b hab => le_of_lt (by simpa using hab))
    rw [List.Sorted.insertionSort_eq hsorted]
    refine List.map_congr_left (fun d _ => ?_)
    rw [finBuckets_eq]
  refine ⟨hhour, ?_, hday, ?_⟩
  · rw [hhour]
    simp
  · rw [hday]
    simp

/-- C7 counterexample: two zaps of 1 and 2 sats in the same hour give the
bucket the rounded mean 2, which differs from the exact quotient 3 / 2:
the per-bucket mean of the code is Math.round(total / count), not
total / count. -/
theorem temporal_buckets_counterexample :
    (groupZapsByHour utcHour
      [mkZap "z1" 0 1 "a" none, mkZap "z2" 60 2 "b" none]).head? =
      some { hour := 0, totalSats := 3, zapCount := 2, avgZapAmount := 2 } ∧
    (2 : ℚ) ≠ 3 / 2 := by
  constructor
  · decide
  · norm_num

/-- One kind-map update adds exactly the amount of the zap to the sum of
the per-kind totals. -/
theorem sum_updateKind (kind amount : Nat) (l : List (Nat × Nat × Nat)) :
    ((updateKind kind amount l).map (fun kv => kv.2.1)).sum =
      (l.map (fun kv => kv.2.1)).sum + amount := by
  induction l with
  | nil => simp [updateKind]
  | cons kv rest ih =>
    obtain ⟨k, total, count⟩ := kv
    by_cases hk : k = kind
    · simp [updateKind, hk]
      omega
    · simp [updateKind, hk, ih]
      omega

/-- Folding the kind map over a zap list adds exactly the amounts of the
zaps that reference content. -/
theorem sum_foldKind (zaps : List ParsedZap) (acc : List (Nat × Nat × Nat)) :
    ((zaps.foldl
        (fun acc zap =>
          match zap.zappedEvent with
          | none => acc
          | some ev => updateKind ev.kind zap.amount acc)
        acc).map (fun kv => kv.2.1)).sum =
      (acc.map (fun kv => kv.2.1)).sum +
        ((zaps.filter (fun z => z.zappedEvent.isSome)).map (fun z => z.amount)).sum := by
  induction zaps generalizing acc with
  | nil => simp
  | cons z zs ih =>
    cases hz : z.zappedEvent with
    | none => simp [List.foldl_cons, hz, ih, List.filter_cons]
    | some ev =>
      simp only [List.foldl_cons, hz]
      rw [ih, sum_updateKind]
      simp [List.filter_cons, hz]
      omega

/-- Splitting the amount sum along the content filter. -/
theorem sum_amount_split (zaps : List ParsedZap) :
    (zaps.map (fun z => z.amount)).sum =
      ((zaps.filter (fun z => z.zappedEvent.isSome)).map (fun z => z.amount)).sum +
        ((zaps.filter (fun z => ¬ z.zappedEvent.isSome)).map (fun z => z.amount)).sum := by
  induction zaps with
  | nil => simp
  | cons z zs ih =>
    cases hz : z.zappedEvent <;> simp [List.filter_cons, hz, ih] <;> omega

/-- Rational sum of mapped shares. -/
theorem sum_map_div_mul (l : List Nat) (S : ℚ) :
    (l.map (fun k : Nat => ((k : ℚ) / S) * 100)).sum = ((l.sum : ℚ) / S) * 100 := by
  induction l with
  | nil => simp
  | cons a rest ih =>
    simp only [List.map_cons, List.sum_cons, ih]
    push_cast
    ring

/-- The percentage sum of the kind grouping in closed form. -/
theorem groupZapsByKind_percent_sum (zaps : List ParsedZap) :
    ((groupZapsByKind zaps).map (fun e => e.percent)).sum =
      if 0 < totalEarningsOf zaps then
        ((totalEarningsOf (zaps.filter (fun z => z.zappedEvent.isSome)) : ℚ) /
          (totalEarningsOf zaps : ℚ)) * 100
      else 0 := by
  unfold groupZapsByKind
  set grouped := zaps.foldl
    (fun acc zap =>
      match zap.zappedEvent with
      | none => acc
      | some ev => updateKind ev.kind zap.amount acc)
    [] with hgrouped
  set S : Nat := zaps.foldl (fun sum zap => sum + zap.amount) 0 with hS
  have hSe : S = totalEarningsOf zaps := rfl
  have hperm := (List.perm_insertionSort
    (fun a b : EarningsByKind => b.totalSats ≤ a.totalSats)
    (grouped.map (fun kv =>
      ({ kind := kv.1, totalSats := kv.2.1, zapCount := kv.2.2,
         percent := if 0 < S then ((kv.2.1 : ℚ) / (S : ℚ)) * 100 else 0 } :
        EarningsByKind)))).map (fun e => e.percent)
  rw [hperm.sum_eq, List.map_map]
  by_cases hpos : 0 < S
  · simp only [hpos, if_pos]
    have hcomp : ((fun e : EarningsByKind => e.percent) ∘ (fun kv : Nat × Nat × Nat =>
        ({ kind := kv.1, totalSats := kv.2.1, zapCount := kv.2.2,
           percent := ((kv.2.1 : ℚ) / (S : ℚ)) * 100 } : EarningsByKind))) =
        (fun kv : Nat × Nat × Nat => ((kv.2.1 : ℚ) / (S : ℚ)) * 100) := rfl
    rw [hcomp]
    have hmm : grouped.map (fun kv : Nat × Nat × Nat => ((kv.2.1 : ℚ) / (S : ℚ)) * 100) =
        (grouped.map (fun kv => kv.2.1)).map (fun k : Nat => ((k : ℚ) / (S : ℚ)) * 100) := by
      rw [List.map_map]
      rfl
    rw [hmm, sum_map_div_mul]
    have hgsum : (grouped.map (fun kv => kv.2.1)).sum =
        totalEarningsOf (zaps.filter (fun z => z.zappedEvent.isSome)) := by
      rw [hgrouped]
      rw [sum_foldKind zaps []]
      rw [totalEarningsOf_eq_sum]
      simp
    rw [hgsum, ← hSe, if_pos hpos]
  · simp only [hpos, if_neg, if_false]
    rw [← hSe, if_neg hpos]
    have : ((fun e : EarningsByKind => e.percent) ∘ (fun kv : Nat × Nat × Nat =>
        ({ kind := kv.1, totalSats := kv.2.1, zapCount := kv.2.2,
           percent := (0 : ℚ) } : EarningsByKind))) =
        (fun _ : Nat × Nat × Nat => (0 : ℚ)) := rfl
    simp [this]

/-- A sum of naturals vanishes exactly when every summand does. -/
theorem nat_sum_eq_zero_iff (l : List Nat) : l.sum = 0 ↔ ∀ x ∈ l, x = 0 := by
  induction l with
  | nil => simp
  | cons a rest ih => simp [ih]

/-- C9 amended: the percentages of the kind grouping sum to at most 100;
they sum to exactly 100 when and only when the grand total is positive
and every record with a positive amount references content (the grand
total counts every record while the buckets only count records with
content); and when the grand total is 0 every percentage is 0. -/
theorem groupZapsByKind_percent_spec (zaps : List ParsedZap) :
    ((groupZapsByKind zaps).map (fun e => e.percent)).sum ≤ 100 ∧
    (((groupZapsByKind zaps).map (fun e => e.percent)).sum = 100 ↔
      (0 < totalEarningsOf zaps ∧
        ∀ z ∈ zaps, 0 < z.amount → z.zappedEvent.isSome = true)) ∧
    (totalEarningsOf zaps = 0 →
      ∀ e ∈ groupZapsByKind zaps, e.percent = 0) := by
  have hTN : totalEarningsOf (zaps.filter (fun z => z.zappedEvent.isSome)) +
      ((zaps.filter (fun z => ¬ z.zappedEvent.isSome)).map (fun z => z.amount)).sum =
      totalEarningsOf zaps := by
    rw [totalEarningsOf_eq_sum, totalEarningsOf_eq_sum]
    exact (sum_amount_split zaps).symm
  set T := totalEarningsOf (zaps.filter (fun z => z.zappedEvent.isSome)) with hT
  set N := ((zaps.filter (fun z => ¬ z.zappedEvent.isSome)).map (fun z => z.amount)).sum
    with hN
  set S := totalEarningsOf zaps with hS
  refine ⟨?_, ?_, ?_⟩
  · rw [groupZapsByKind_percent_sum]
    by_cases hpos : 0 < S
    · rw [← hS, if_pos hpos, ← hT]
      have hle : (T : ℚ) ≤ (S : ℚ) := by
        have : T ≤ S := by omega
        exact_mod_cast this
      have hS0 : (0 : ℚ) < (S : ℚ) := by exact_mod_cast hpos
      calc ((T : ℚ) / (S : ℚ)) * 100 ≤ 1 * 100 := by
            apply mul_le_mul_of_nonneg_right ((div_le_one hS0).mpr hle)
            norm_num
        _ = 100 := by norm_num
    · rw [← hS, if_neg hpos]
      norm_num
  · rw [groupZapsByKind_percent_sum, ← hS, ← hT]
    by_cases hpos : 0 < S
    · rw [if_pos hpos]
      have hS0 : (0 : ℚ) < (S : ℚ) := by exact_mod_cast hpos
      have h1 : ((T : ℚ) / (S : ℚ)) * 100 = 100 ↔ (T : ℚ) / (S : ℚ) = 1 := by
        constructor
        · intro h
          have := mul_right_cancel₀ (b := (100 : ℚ)) (by norm_num)
            (h.trans (one_mul (100 : ℚ)).symm)
          exact this
        · intro h
          rw [h, one_mul]
      have h2 : (T : ℚ) / (S : ℚ) = 1 ↔ T = S := by
        rw [div_eq_one_iff_eq (ne_of_gt hS0)]
        exact_mod_cast Iff.rfl
      have h3 : T = S ↔ N = 0 := by omega
      have h4 : N = 0 ↔ ∀ z ∈ zaps, 0 < z.amount → z.zappedEvent.isSome = true := by
        rw [hN, nat_sum_eq_zero_iff]
        constructor
        · intro h z hz hamt
          by_cases hsome : z.zappedEvent.isSome = true
          · exact hsome
          · have hmem : z ∈ zaps.filter (fun z => ¬ z.zappedEvent.isSome) := by
              rw [List.mem_filter]
              exact ⟨hz, by simp [hsome]⟩
            have := h z.amount (List.mem_map_of_mem (fun z => z.amount) hmem)
            omega
        · intro h x hx
          obtain ⟨z, hz, rfl⟩ := List.mem_map.mp hx
          rw [List.mem_filter] at hz
          by_cases hamt : z.amount = 0
          · exact hamt
          · have := h z hz.1 (by omega)
            simp [this] at hz
      rw [h1, h2, h3, h4]
      simp [hpos]
    · rw [if_neg hpos]
      constructor
      · intro h
        exact absurd h (by norm_num)
      · intro h
        exact absurd h.1 hpos
  · intro hzero e he
    have hS2 : zaps.foldl (fun sum zap => sum + zap.amount) 0 = 0 := hzero
    unfold groupZapsByKind at he
    rw [List.mem_insertionSort] at he
    obtain ⟨kv, _, rfl⟩ := List.mem_map.mp he
    simp [hS2]

/-- C9 counterexample: on the empty record list the percentage sum is 0
while every record with a positive amount vacuously references content,
so the unrestricted equality-condition of the claim fails; the grand
total must additionally be positive. -/
theorem groupZapsByKind_percent_counterexample :
    ((groupZapsByKind []).map (fun e => e.percent)).sum = 0 ∧
    (∀ z ∈ ([] : List ParsedZap), 0 < z.amount → z.zappedEvent.isSome = true) ∧
    (0 : ℚ) ≠ 100 := by
  refine ⟨rfl, by simp, by norm_num⟩

/-- The keys of the zapper map evolve by appending fresh pubkeys. -/
theorem updateZapper_keys (z : ParsedZap) (G : List ZapperAcc) :
    (updateZapper z G).map (fun g => g.pubkey) =
      insertUnique (G.map (fun g => g.pubkey)) z.zapper.pubkey := by
  induction G with
  | nil => simp [updateZapper, insertUnique]
  | cons g G ih =>
    by_cases hg : g.pubkey = z.zapper.pubkey
    · simp [updateZapper, hg, insertUnique]
    · have hne : ¬ z.zapper.pubkey = g.pubkey := fun he => hg he.symm
      simp only [updateZapper, hg, if_false, List.map_cons, ih, insertUnique]
      by_cases hmem : z.zapper.pubkey ∈ G.map (fun g => g.pubkey)
      · simp [hmem, hne]
      · simp [hmem, hne]

/-- Lookup through one zapper-map update. -/
theorem updateZapper_find (z : ParsedZap) (G : List ZapperAcc) (pk : String) :
    (updateZapper z G).find? (fun g => g.pubkey = pk) =
      if pk = z.zapper.pubkey then
        some (match G.find? (fun g => g.pubkey = pk) with
              | none => freshZapper z
              | some g => bumpZapper g z)
      else G.find? (fun g => g.pubkey = pk) := by
  induction G with
  | nil =>
    by_cases hpk : pk = z.zapper.pubkey
    · rw [if_pos hpk]
      show List.find? (fun g => g.pubkey = pk) [freshZapper z] = _
      rw [List.find?_cons_of_pos _ (by simp [freshZapper, hpk])]
      rfl
    · rw [if_neg hpk]
      show List.find? (fun g => g.pubkey = pk) [freshZapper z] = _
      rw [List.find?_cons_of_neg _ (by simp [freshZapper]; exact fun he => hpk he.symm)]
  | cons g G ih =>
    by_cases hg : g.pubkey = z.zapper.pubkey
    · have hup : updateZapper z (g :: G) = bumpZapper g z :: G := by
        simp [updateZapper, hg, bumpZapper]
      rw [hup]
      by_cases hpk : pk = z.zapper.pubkey
      · have hgpk : g.pubkey = pk := by rw [hg, hpk]
        rw [List.find?_cons_of_pos _ (by simp [bumpZapper, hgpk]),
            if_pos hpk, List.find?_cons_of_pos _ (by simp [hgpk])]
      · have hgpk : ¬ g.pubkey = pk := by
          rw [hg]
          exact fun he => hpk he.symm
        rw [List.find?_cons_of_neg _ (by simp [bumpZapper, hgpk]),
            if_neg hpk, List.find?_cons_of_neg _ (by simp [hgpk])]
    · have hup : updateZapper z (g :: G) = g :: updateZapper z G := by
        simp [updateZapper, hg]
      rw [hup]
      by_cases hgpk : g.pubkey = pk
      · have hpk : ¬ pk = z.zapper.pubkey := by
          intro he
          exact hg (hgpk.trans he)
        rw [List.find?_cons_of_pos _ (by simp [hgpk]), if_neg hpk,
            List.find?_cons_of_pos _ (by simp [hgpk])]
      · rw [List.find?_cons_of_neg _ (by simp [hgpk]), ih]
        by_cases hpk : pk = z.zapper.pubkey
        · rw [if_pos hpk, if_pos hpk, List.find?_cons_of_neg _ (by simp [hgpk])]
        · rw [if_neg hpk, if_neg hpk, List.find?_cons_of_neg _ (by simp [hgpk])]

/-- Appending one zap to the stream applies one zapper-map update. -/
theorem zapperGroups_snoc (zs : List ParsedZap) (z : ParsedZap) :
    zapperGroups (zs ++ [z]) = updateZapper z (zapperGroups zs) := by
  unfold zapperGroups
  rw [List.foldl_append]
  rfl

/-- Membership in an insertion-ordered set insert. -/
theorem mem_insertUnique {α : Type} [DecidableEq α] (l : List α) (a x : α) :
    x ∈ insertUnique l a ↔ x ∈ l ∨ x = a := by
  unfold insertUnique
  by_cases hm : a ∈ l
  · simp [hm]
    intro he
    rw [he]
    exact hm
  · simp [hm]

/-- An insertion-ordered set insert keeps lists without duplicates. -/
theorem nodup_insertUnique {α : Type} [DecidableEq α] (l : List α) (a : α)
    (h : l.Nodup) : (insertUnique l a).Nodup := by
  unfold insertUnique
  by_cases hm : a ∈ l
  · simpa [hm] using h
  · simp [hm, List.nodup_append, h]

/-- Membership after folding insertion-ordered set inserts. -/
theorem mem_foldl_insertUnique {α : Type} [DecidableEq α] (xs : List α) :
    ∀ (acc : List α) (x : α), x ∈ xs.foldl insertUnique acc ↔ x ∈ acc ∨ x ∈ xs := by
  induction xs with
  | nil => simp
  | cons a xs ih =>
    intro acc x
    simp only [List.foldl_cons, ih, mem_insertUnique, List.mem_cons]
    tauto

/-- Folding insertion-ordered set inserts keeps lists without
duplicates. -/
theorem nodup_foldl_insertUnique {α : Type} [DecidableEq α] (xs : List α) :
    ∀ acc : List α, acc.Nodup → (xs.foldl insertUnique acc).Nodup := by
  induction xs with
  | nil => simpa
  | cons a xs ih =>
    intro acc hacc
    exact ih _ (nodup_insertUnique acc a hacc)

/-- The size of the insertion-ordered set of a list is the size of its
dedup. -/
theorem length_foldl_insertUnique {α : Type} [DecidableEq α] (xs : List α) :
    (xs.foldl insertUnique []).length = xs.dedup.length := by
  have hnd : (xs.foldl insertUnique []).Nodup :=
    nodup_foldl_insertUnique xs [] List.nodup_nil
  have hfs : (xs.foldl insertUnique []).toFinset = xs.dedup.toFinset := by
    apply Finset.ext
    intro x
    simp [List.mem_toFinset, mem_foldl_insertUnique, List.mem_dedup]
  calc (xs.foldl insertUnique []).length
      = (xs.foldl insertUnique []).toFinset.card := (List.toFinset_card_of_nodup hnd).symm
    _ = xs.dedup.toFinset.card := by rw [hfs]
    _ = xs.dedup.length := List.toFinset_card_of_nodup xs.nodup_dedup

/-- First-match lookup by key finds exactly the member itself when the
keys carry no duplicates. -/
theorem find_key_eq_of_mem {α β : Type} [DecidableEq β] (f : α → β) :
    ∀ (l : List α) (a : α), (l.map f).Nodup → a ∈ l →
      l.find? (fun x => f x = f a) = some a := by
  intro l
  induction l with
  | nil => intro a _ ha; cases ha
  | cons hd tl ih =>
    intro a hnd ha
    by_cases hfa : f hd = f a
    · have hda : a = hd := by
        rcases List.mem_cons.mp ha with h | h
        · exact h
        · exfalso
          have : f a ∈ tl.map f := List.mem_map_of_mem f h
          rw [← hfa] at this
          exact (List.nodup_cons.mp hnd).1 this
      rw [hda]
      exact List.find?_cons_of_pos _ (by simp)
    · have hda : a ∈ tl := by
        rcases List.mem_cons.mp ha with h | h
        · exact absurd (congrArg f h.symm) hfa
        · exact h
      rw [List.find?_cons_of_neg _ (by simp [hfa])]
      exact ih a (List.nodup_cons.mp hnd).2 hda

/-- Closed form of the repeated zapper bump: it appends the zaps and adds
their amounts and their count. -/
theorem foldl_bumpZapper (l : List ParsedZap) :
    ∀ acc : ZapperAcc, l.foldl bumpZapper acc =
      { acc with zaps := acc.zaps ++ l,
                 totalSats := acc.totalSats + (l.map (fun z => z.amount)).sum,
                 zapCount := acc.zapCount + l.length } := by
  induction l with
  | nil => intro acc; simp
  | cons z zs ih =>
    intro acc
    rw [List.foldl_cons, ih]
    simp [bumpZapper]
    omega

/-- Lookup in the zapper map over the whole stream: the entry of a pubkey
aggregates exactly the zaps of that pubkey, in order. -/
theorem zapperGroups_find (zaps : List ParsedZap) (pk : String) :
    (zapperGroups zaps).find? (fun g => g.pubkey = pk) =
      match zaps.filter (fun z => z.zapper.pubkey = pk) with
      | [] => none
      | z1 :: rest => some (rest.foldl bumpZapper (freshZapper z1)) := by
  induction zaps using List.reverseRecOn with
  | nil => rfl
  | append_singleton zs z ih =>
    rw [zapperGroups_snoc, updateZapper_find, List.filter_append]
    by_cases hpk : pk = z.zapper.pubkey
    · rw [if_pos hpk, ih]
      have hz : [z].filter (fun x => x.zapper.pubkey = pk) = [z] := by
        simp [List.filter_cons, hpk.symm]
      rw [hz]
      cases hzs : zs.filter (fun x => x.zapper.pubkey = pk) with
      | nil =>
        have hfresh : freshZapper z = bumpZapper
            { pubkey := z.zapper.pubkey, name := z.zapper.name,
              picture := z.zapper.picture, zaps := [], totalSats := 0,
              zapCount := 0 } z := by
          simp [freshZapper, bumpZapper]
        simp
      | cons z1 rest =>
        simp [List.foldl_append]
    · rw [if_neg hpk, ih]
      have hz : [z].filter (fun x => x.zapper.pubkey = pk) = [] := by
        simp [List.filter_cons]
        exact fun he => hpk he.symm
      rw [hz, List.append_nil]

/-- The keys of the zapper map are the insertion-ordered set of the
zapper pubkeys of the stream. -/
theorem zapperGroups_keys (zaps : List ParsedZap) :
    (zapperGroups zaps).map (fun g => g.pubkey) =
      (zaps.map (fun z => z.zapper.pubkey)).foldl insertUnique [] := by
  induction zaps using List.reverseRecOn with
  | nil => rfl
  | append_singleton zs z ih =>
    rw [zapperGroups_snoc, updateZapper_keys, ih, List.map_append,
      List.foldl_append]
    rfl

/-- The zapper keys carry no duplicates. -/
theorem zapperGroups_keys_nodup (zaps : List ParsedZap) :
    ((zapperGroups zaps).map (fun g => g.pubkey)).Nodup := by
  rw [zapperGroups_keys]
  exact nodup_foldl_insertUnique _ [] List.nodup_nil

/-- The zapper map has one entry per distinct zapper pubkey. -/
theorem zapperGroups_length (zaps : List ParsedZap) :
    (zapperGroups zaps).length =
      ((zaps.map (fun z => z.zapper.pubkey)).dedup).length := by
  have h1 : (zapperGroups zaps).length =
      ((zapperGroups zaps).map (fun g => g.pubkey)).length :=
    (List.length_map ..).symm
  rw [h1, zapperGroups_keys, length_foldl_insertUnique]

/-- One zapper-map update adds exactly the amount of the zap to the sum
of the per-zapper totals. -/
theorem sum_totalSats_updateZapper (z : ParsedZap) (G : List ZapperAcc) :
    ((updateZapper z G).map (fun g => g.totalSats)).sum =
      (G.map (fun g => g.totalSats)).sum + z.amount := by
  induction G with
  | nil => simp [updateZapper, freshZapper]
  | cons g G ih =>
    by_cases hg : g.pubkey = z.zapper.pubkey
    · simp [updateZapper, hg]
      omega
    · simp [updateZapper, hg, ih]
      omega

/-- The per-zapper totals sum to the grand total. -/
theorem zapperGroups_total (zaps : List ParsedZap) :
    ((zapperGroups zaps).map (fun g => g.totalSats)).sum = totalEarningsOf zaps := by
  induction zaps using List.reverseRecOn with
  | nil => rfl
  | append_singleton zs z ih =>
    rw [zapperGroups_snoc, sum_totalSats_updateZapper, ih,
      totalEarningsOf_eq_sum, totalEarningsOf_eq_sum, List.map_append,
      List.sum_append]
    simp

/-- Unfolding the running reduce of per-zapper totals into a mapped sum. -/
theorem foldl_add_totalSats (G : List ZapperAcc) (n : Nat) :
    G.foldl (fun sum g => sum + g.totalSats) n =
      n + (G.map (fun g => g.totalSats)).sum := by
  induction G generalizing n with
  | nil => simp
  | cons g G ih => simp [List.foldl_cons, ih]; omega

/-- The entries of the zapper map aggregate exactly the zaps of their own
pubkey. -/
theorem mem_zapperGroups_spec (zaps : List ParsedZap) (g : ZapperAcc)
    (hg : g ∈ zapperGroups zaps) :
    g.zaps = zaps.filter (fun z => z.zapper.pubkey = g.pubkey) ∧
    g.zapCount = g.zaps.length ∧
    g.totalSats = (g.zaps.map (fun z => z.amount)).sum := by
  have hfind : (zapperGroups zaps).find? (fun x => x.pubkey = g.pubkey) = some g :=
    find_key_eq_of_mem (fun x => x.pubkey) (zapperGroups zaps)
      g (zapperGroups_keys_nodup zaps) hg
  rw [zapperGroups_find] at hfind
  cases hzs : zaps.filter (fun z => z.zapper.pubkey = g.pubkey) with
  | nil =>
    rw [hzs] at hfind
    cases hfind
  | cons z1 rest =>
    rw [hzs] at hfind
    have hgeq : g = rest.foldl bumpZapper (freshZapper z1) := by
      cases hfind
      rfl
    rw [foldl_bumpZapper] at hgeq
    subst hgeq
    refine ⟨?_, ?_, ?_⟩
    · simp [freshZapper]
    · simp [freshZapper]
      omega
    · simp [freshZapper]

/-- C4 amended: every zapperData entry aggregates exactly the records of
its own actor with distinct actors kept apart; the classification is
one-time for exactly one record, else whale from 10000 sats lifetime
total (equality included), else regular for at least 5 records or at
least 3 records with an average gap of at most 7 days, else occasional;
one-record actors are counted as new, the others as returning, the
regular branch as regular supporters; and averageLifetimeValue is the
grand total divided by the number of distinct actors ROUNDED to the
nearest integer (Math.round), not the exact quotient. -/
theorem analyzeZapperLoyalty_spec (zaps : List ParsedZap) :
    (∀ g ∈ zapperGroups zaps,
        g.zaps = zaps.filter (fun z => z.zapper.pubkey = g.pubkey) ∧
        g.zapCount = g.zaps.length ∧
        g.totalSats = (g.zaps.map (fun z => z.amount)).sum) ∧
    ((zapperGroups zaps).map (fun g => g.pubkey)).Nodup ∧
    (∀ g : ZapperAcc,
        ((zapperLoyaltyEntry g).zapCount = 1 →
          (zapperLoyaltyEntry g).category = LoyaltyCategory.oneTime) ∧
        (1 < (zapperLoyaltyEntry g).zapCount →
          10000 ≤ (zapperLoyaltyEntry g).totalSats →
          (zapperLoyaltyEntry g).category = LoyaltyCategory.whale) ∧
        (1 < (zapperLoyaltyEntry g).zapCount →
          (zapperLoyaltyEntry g).totalSats < 10000 →
          (5 ≤ (zapperLoyaltyEntry g).zapCount ∨
            (3 ≤ (zapperLoyaltyEntry g).zapCount ∧
              (zapperLoyaltyEntry g).averageDaysBetweenZaps ≤ 7)) →
          (zapperLoyaltyEntry g).category = LoyaltyCategory.regular) ∧
        (1 < (zapperLoyaltyEntry g).zapCount →
          (zapperLoyaltyEntry g).totalSats < 10000 →
          ¬ (5 ≤ (zapperLoyaltyEntry g).zapCount ∨
            (3 ≤ (zapperLoyaltyEntry g).zapCount ∧
              (zapperLoyaltyEntry g).averageDaysBetweenZaps ≤ 7)) →
          (zapperLoyaltyEntry g).category = LoyaltyCategory.occasional)) ∧
    (analyzeZapperLoyalty zaps).newZappers =
      (zapperGroups zaps).countP (fun g => g.zapCount = 1) ∧
    (analyzeZapperLoyalty zaps).returningZappers =
      (zapperGroups zaps).countP (fun g => 1 < g.zapCount) ∧
    (analyzeZapperLoyalty zaps).regularSupporters =
      (zapperGroups zaps).countP
        (fun g => (zapperLoyaltyEntry g).category = LoyaltyCategory.regular) ∧
    (analyzeZapperLoyalty zaps).averageLifetimeValue =
      (if 0 < ((zaps.map (fun z => z.zapper.pubkey)).dedup).length then
        jsRound (totalEarningsOf zaps)
          (((zaps.map (fun z => z.zapper.pubkey)).dedup).length)
      else 0) := by
  refine ⟨fun g hg => mem_zapperGroups_spec zaps g hg,
    zapperGroups_keys_nodup zaps, ?_, ?_, ?_, ?_, ?_⟩
  · intro g
    have hzc : (zapperLoyaltyEntry g).zapCount = g.zapCount := rfl
    have hts : (zapperLoyaltyEntry g).totalSats = g.totalSats := rfl
    have hcat : (zapperLoyaltyEntry g).category =
        (if g.zapCount = 1 then LoyaltyCategory.oneTime
         else if 10000 ≤ g.totalSats then LoyaltyCategory.whale
         else if 5 ≤ g.zapCount ∨ (3 ≤ g.zapCount ∧
             (zapperLoyaltyEntry g).averageDaysBetweenZaps ≤ 7) then
           LoyaltyCategory.regular
         else LoyaltyCategory.occasional) := rfl
    refine ⟨?_, ?_, ?_, ?_⟩
    · intro h1
      rw [hzc] at h1
      rw [hcat, if_pos h1]
    · intro h1 h2
      rw [hzc] at h1
      rw [hts] at h2
      rw [hcat, if_neg (by omega), if_pos h2]
    · intro h1 h2 h3
      rw [hzc] at h1 h3
      rw [hts] at h2
      rw [hcat, if_neg (by omega), if_neg (by omega), if_pos h3]
    · intro h1 h2 h3
      rw [hzc] at h1 h3
      rw [hts] at h2
      rw [hcat, if_neg (by omega), if_neg (by omega), if_neg h3]
  · show ((zapperGroups zaps).map zapperLoyaltyEntry).countP
        (fun e => e.zapCount = 1) = _
    rw [List.countP_map]
    rfl
  · show ((zapperGroups zaps).map zapperLoyaltyEntry).countP
        (fun e => 1 < e.zapCount) = _
    rw [List.countP_map]
    rfl
  · show ((zapperGroups zaps).map zapperLoyaltyEntry).countP
        (fun e => e.category = LoyaltyCategory.regular) = _
    rw [List.countP_map]
    rfl
  · have hALV : (analyzeZapperLoyalty zaps).averageLifetimeValue =
        if 0 < (zapperGroups zaps).length then
          jsRound ((zapperGroups zaps).foldl (fun sum z => sum + z.totalSats) 0)
            (zapperGroups zaps).length
        else 0 := rfl
    rw [hALV, foldl_add_totalSats]
    simp only [Nat.zero_add]
    rw [zapperGroups_total, zapperGroups_length]

/-- C4 counterexample: two one-zap actors of 2 and 3 sats give the coded
averageLifetimeValue Math.round(5 / 2) = 3, while the exact quotient of
the grand total by the distinct actor count is 5 / 2. -/
theorem analyzeZapperLoyalty_counterexample :
    (analyzeZapperLoyalty
      [mkZap "z1" 0 2 "a" none, mkZap "z2" 10 3 "b" none]).averageLifetimeValue = 3 ∧
    totalEarningsOf [mkZap "z1" 0 2 "a" none, mkZap "z2" 10 3 "b" none] = 5 ∧
    (([mkZap "z1" 0 2 "a" none, mkZap "z2" 10 3 "b" none].map
      (fun z => z.zapper.pubkey)).dedup).length = 2 ∧
    ((3 : ℚ) ≠ (5 : ℚ) / 2) := by
  refine ⟨by decide, by decide, by decide, by norm_num⟩

/-- C4 witness: an actor with exactly 5 records, large ten-day gaps and a
lifetime total below the whale threshold is classified regular, and the
fixture really is the single zapperData entry of its stream. -/
theorem analyzeZapperLoyalty_spec_witness :
    (zapperLoyaltyEntry
      { pubkey := "a", name := none, picture := none,
        zaps := [mkZap "z1" 0 100 "a" none, mkZap "z2" 864000 100 "a" none,
                 mkZap "z3" 1728000 100 "a" none, mkZap "z4" 2592000 100 "a" none,
                 mkZap "z5" 3456000 100 "a" none],
        totalSats := 500, zapCount := 5 }).category = LoyaltyCategory.regular ∧
    { pubkey := "a", name := none, picture := none,
      zaps := [mkZap "z1" 0 100 "a" none, mkZap "z2" 864000 100 "a" none,
               mkZap "z3" 1728000 100 "a" none, mkZap "z4" 2592000 100 "a" none,
               mkZap "z5" 3456000 100 "a" none],
      totalSats := 500, zapCount := 5 } ∈
      zapperGroups [mkZap "z1" 0 100 "a" none, mkZap "z2" 864000 100 "a" none,
                    mkZap "z3" 1728000 100 "a" none, mkZap "z4" 2592000 100 "a" none,
                    mkZap "z5" 3456000 100 "a" none] := by
  have h := analyzeZapperLoyalty_spec
    [mkZap "z1" 0 100 "a" none, mkZap "z2" 864000 100 "a" none,
     mkZap "z3" 1728000 100 "a" none, mkZap "z4" 2592000 100 "a" none,
     mkZap "z5" 3456000 100 "a" none]
  have hcls := h.2.2.1
    { pubkey := "a", name := none, picture := none,
      zaps := [mkZap "z1" 0 100 "a" none, mkZap "z2" 864000 100 "a" none,
               mkZap "z3" 1728000 100 "a" none, mkZap "z4" 2592000 100 "a" none,
               mkZap "z5" 3456000 100 "a" none],
      totalSats := 500, zapCount := 5 }
  exact ⟨hcls.2.2.1 (by decide) (by decide) (Or.inl (by decide)), by decide⟩

/-- Lookup in a cons of the hashtag map. -/
theorem lookupTag_cons (k : String) (d : TagAcc) (rest : List (String × TagAcc))
    (t : String) :
    lookupTag t ((k, d) :: rest) = if k = t then some d else lookupTag t rest := by
  unfold lookupTag
  by_cases hk : k = t
  · rw [List.find?_cons_of_pos _ (by simp [hk]), if_pos hk]
    rfl
  · rw [List.find?_cons_of_neg _ (by simp [hk]), if_neg hk]

/-- Adding the same id twice to the posts set is adding it once. -/
theorem addPost_addPost (p : List String) (id : String) :
    addPost (addPost p id) id = addPost p id := by
  unfold addPost insertUnique
  by_cases hm : id ∈ p
  · simp [hm]
  · simp [hm]

/-- The n-fold bump commutes with one more bump. -/
theorem bumpTagN_bumpTag (amt : Nat) (zt : Int) (ev : ZappedEvent) (n : Nat)
    (x : TagAcc) :
    bumpTagN amt zt ev n (bumpTag amt zt ev x) =
      bumpTag amt zt ev (bumpTagN amt zt ev n x) := by
  induction n with
  | zero => rfl
  | succ n ih => show bumpTag amt zt ev _ = _; rw [ih]; rfl

/-- Closed form of the positive n-fold bump. -/
theorem bumpTagN_closed (amt : Nat) (zt : Int) (ev : ZappedEvent) :
    ∀ n, 0 < n → ∀ d : TagAcc, bumpTagN amt zt ev n d =
      { totalSats := d.totalSats + n * amt, zapCount := d.zapCount + n,
        posts := addPost d.posts ev.id,
        firstZapTimes := d.firstZapTimes ++ List.replicate n zt,
        contentCreatedTimes := d.contentCreatedTimes ++
          List.replicate n ev.created_at } := by
  intro n
  induction n with
  | zero => intro h; omega
  | succ n ih =>
    intro _ d
    by_cases hn : 0 < n
    · show bumpTag amt zt ev (bumpTagN amt zt ev n d) = _
      rw [ih hn d]
      show ({ totalSats := d.totalSats + n * amt + amt,
              zapCount := d.zapCount + n + 1,
              posts := addPost (addPost d.posts ev.id) ev.id,
              firstZapTimes := d.firstZapTimes ++ List.replicate n zt ++ [zt],
              contentCreatedTimes := d.contentCreatedTimes ++
                List.replicate n ev.created_at ++ [ev.created_at] } : TagAcc) = _
      rw [addPost_addPost, List.append_assoc, List.append_assoc,
        ← List.replicate_succ', ← List.replicate_succ']
      have h1 : d.totalSats + n * amt + amt = d.totalSats + (n + 1) * amt := by ring
      have h2 : d.zapCount + n + 1 = d.zapCount + (n + 1) := by omega
      rw [h1, h2]
    · have hn0 : n = 0 := by omega
      subst hn0
      show bumpTag amt zt ev d = _
      simp [bumpTag, List.replicate_succ']

/-- Lookup through one hashtag-map update. -/
theorem updateTag_find (h : String) (amt : Nat) (zt : Int) (ev : ZappedEvent)
    (acc : List (String × TagAcc)) (t : String) :
    lookupTag t (updateTag h amt zt ev acc) =
      if t = h then some (bumpTag amt zt ev ((lookupTag t acc).getD emptyTagAcc))
      else lookupTag t acc := by
  induction acc with
  | nil =>
    show lookupTag t [(h, _)] = _
    rw [lookupTag_cons]
    by_cases ht : t = h
    · rw [if_pos ht.symm, if_pos ht]
      show _ = some (bumpTag amt zt ev emptyTagAcc)
      simp [bumpTag, emptyTagAcc, addPost, insertUnique]
    · rw [if_neg (fun he => ht he.symm), if_neg ht]
  | cons kd rest ih =>
    obtain ⟨k, d⟩ := kd
    by_cases hk : k = h
    · have hup : updateTag h amt zt ev ((k, d) :: rest) =
          (k, bumpTag amt zt ev d) :: rest := by
        simp [updateTag, hk, bumpTag]
      rw [hup, lookupTag_cons, lookupTag_cons]
      by_cases hkt : k = t
      · rw [if_pos hkt, if_pos hkt, if_pos (hkt.symm.trans hk)]
        rfl
      · rw [if_neg hkt, if_neg hkt]
        have htne : ¬ t = h := fun he => hkt ((he.trans hk.symm).symm)
        rw [if_neg htne]
    · have hup : updateTag h amt zt ev ((k, d) :: rest) =
          (k, d) :: updateTag h amt zt ev rest := by
        simp [updateTag, hk]
      rw [hup, lookupTag_cons, lookupTag_cons, ih]
      by_cases hkt : k = t
      · have htne : ¬ t = h := fun he => hk (hkt.trans he)
        rw [if_pos hkt, if_pos hkt, if_neg htne]
      · rw [if_neg hkt, if_neg hkt]

/-- Lookup through the inner fold over the hashtag occurrences of one
content body: the entry of the tag t is bumped once per occurrence. -/
theorem foldl_updateTag_find (amt : Nat) (zt : Int) (ev : ZappedEvent)
    (hs : List String) :
    ∀ (acc : List (String × TagAcc)) (t : String),
      lookupTag t (hs.foldl (fun a h => updateTag h amt zt ev a) acc) =
        if hs.count t = 0 then lookupTag t acc
        else some (bumpTagN amt zt ev (hs.count t)
          ((lookupTag t acc).getD emptyTagAcc)) := by
  induction hs with
  | nil => intro acc t; simp
  | cons h hs ih =>
    intro acc t
    rw [List.foldl_cons, ih, updateTag_find]
    by_cases ht : t = h
    · rw [if_pos ht]
      have hcount : (h :: hs).count t = hs.count t + 1 := by
        simp [List.count_cons, ht]
      rw [hcount]
      by_cases hc : hs.count t = 0
      · rw [hc]
        simp [bumpTagN]
      · rw [if_neg hc, if_neg (by omega)]
        simp only [Option.getD_some]
        rw [bumpTagN_bumpTag]
        rfl
    · rw [if_neg ht]
      have hcount : (h :: hs).count t = hs.count t := by
        simp [List.count_cons, ht]
      rw [hcount]

/-- Appending one zap to the stream applies the inner hashtag fold of
that zap to the hashtag map. -/
theorem hashtagData_snoc (zs : List ParsedZap) (z : ParsedZap) :
    hashtagData (zs ++ [z]) =
      (match z.zappedEvent with
       | none => hashtagData zs
       | some ev =>
         (extractHashtags ev.content).foldl
           (fun acc2 h => updateTag h z.amount z.receipt.created_at ev acc2)
           (hashtagData zs)) := by
  unfold hashtagData
  rw [List.foldl_append]
  rfl

/-- When a tag never occurs in a stream all its aggregates are empty. -/
theorem occCount_zero (t : String) (zaps : List ParsedZap)
    (h : occCount t zaps = 0) :
    occSats t zaps = 0 ∧ tagPostIds t zaps = [] ∧
    tagZapTimes t zaps = [] ∧ tagCreatedTimes t zaps = [] := by
  induction zaps with
  | nil => exact ⟨rfl, rfl, rfl, rfl⟩
  | cons z zs ih =>
    have hz : tagOccurrencesOfZap t z = 0 ∧
        (zs.map (fun z => tagOccurrencesOfZap t z)).sum = 0 := by
      unfold occCount at h
      simp only [List.map_cons, List.sum_cons] at h
      omega
    have hz2 : occCount t zs = 0 := hz.2
    obtain ⟨ih1, ih2, ih3, ih4⟩ := ih hz2
    have hcnt0 : ∀ ev : ZappedEvent, z.zappedEvent = some ev →
        (extractHashtags ev.content).count t = 0 := by
      intro ev hev
      have h1 := hz.1
      unfold tagOccurrencesOfZap at h1
      rw [hev] at h1
      exact h1
    refine ⟨?_, ?_, ?_, ?_⟩
    · unfold occSats
      simp only [List.map_cons, List.sum_cons]
      have hrest : (zs.map (fun z => tagOccurrencesOfZap t z * z.amount)).sum = 0 := ih1
      rw [hrest, hz.1]
      simp
    · unfold tagPostIds
      simp only [List.filterMap_cons]
      have hnone : (z.zappedEvent.bind (fun ev =>
          if 0 < (extractHashtags ev.content).count t then some ev.id
          else none)) = none := by
        cases hev : z.zappedEvent with
        | none => rfl
        | some ev =>
          show (if 0 < (extractHashtags ev.content).count t then some ev.id
            else none) = none
          rw [if_neg (by have := hcnt0 ev hev; omega)]
      rw [hnone]
      exact ih2
    · unfold tagZapTimes
      simp only [List.flatMap_cons]
      have hmz : (match z.zappedEvent with
          | some ev => List.replicate ((extractHashtags ev.content).count t)
              z.receipt.created_at
          | none => ([] : List Int)) = [] := by
        cases hev : z.zappedEvent with
        | none => rfl
        | some ev =>
          show List.replicate ((extractHashtags ev.content).count t)
            z.receipt.created_at = []
          rw [hcnt0 ev hev]
          rfl
      rw [hmz, List.nil_append]
      exact ih3
    · unfold tagCreatedTimes
      simp only [List.flatMap_cons]
      have hmz : (match z.zappedEvent with
          | some ev => List.replicate ((extractHashtags ev.content).count t)
              ev.created_at
          | none => ([] : List Int)) = [] := by
        cases hev : z.zappedEvent with
        | none => rfl
        | some ev =>
          show List.replicate ((extractHashtags ev.content).count t)
            ev.created_at = []
          rw [hcnt0 ev hev]
          rfl
      rw [hmz, List.nil_append]
      exact ih4

/-- The hashtag map over the whole stream: the entry of a tag exists
exactly when the tag occurs, and then aggregates one contribution per
occurrence, the referencing content ids as an insertion-ordered set, and
the zap and creation times in order. -/
theorem hashtagData_find (zaps : List ParsedZap) (t : String) :
    lookupTag t (hashtagData zaps) =
      if occCount t zaps = 0 then none
      else some { totalSats := occSats t zaps, zapCount := occCount t zaps,
                  posts := (tagPostIds t zaps).foldl addPost [],
                  firstZapTimes := tagZapTimes t zaps,
                  contentCreatedTimes := tagCreatedTimes t zaps } := by
  induction zaps using List.reverseRecOn with
  | nil => rfl
  | append_singleton zs z ih =>
    have hocc : occCount t (zs ++ [z]) = occCount t zs + tagOccurrencesOfZap t z := by
      unfold occCount
      rw [List.map_append, List.sum_append]
      simp
    have hsats : occSats t (zs ++ [z]) =
        occSats t zs + tagOccurrencesOfZap t z * z.amount := by
      unfold occSats
      rw [List.map_append, List.sum_append]
      simp
    rw [hashtagData_snoc]
    cases hev : z.zappedEvent with
    | none =>
      have hcnt : tagOccurrencesOfZap t z = 0 := by
        unfold tagOccurrencesOfZap
        rw [hev]
      rw [ih]
      have hid : ∀ r : List ParsedZap → List ParsedZap → Prop, True := fun _ => trivial
      have hocc2 : occCount t (zs ++ [z]) = occCount t zs := by omega
      have hsats2 : occSats t (zs ++ [z]) = occSats t zs := by
        rw [hsats, hcnt]
        simp
      have hpost2 : tagPostIds t (zs ++ [z]) = tagPostIds t zs := by
        unfold tagPostIds
        rw [List.filterMap_append]
        simp [hev]
      have hzt2 : tagZapTimes t (zs ++ [z]) = tagZapTimes t zs := by
        unfold tagZapTimes
        rw [List.flatMap_append]
        simp [hev]
      have hct2 : tagCreatedTimes t (zs ++ [z]) = tagCreatedTimes t zs := by
        unfold tagCreatedTimes
        rw [List.flatMap_append]
        simp [hev]
      rw [hocc2, hsats2, hpost2, hzt2, hct2]
    | some ev =>
      have hcnt : tagOccurrencesOfZap t z = (extractHashtags ev.content).count t := by
        unfold tagOccurrencesOfZap
        rw [hev]
      have hpost : tagPostIds t (zs ++ [z]) = tagPostIds t zs ++
          (if 0 < (extractHashtags ev.content).count t then [ev.id] else []) := by
        unfold tagPostIds
        rw [List.filterMap_append]
        congr 1
        simp only [List.filterMap_cons, List.filterMap_nil, hev]
        have hb : ((some ev).bind fun ev =>
            if 0 < (extractHashtags ev.content).count t then some ev.id
            else none) =
            if 0 < (extractHashtags ev.content).count t then some ev.id
            else none := rfl
        rw [hb]
        by_cases hcp : 0 < (extractHashtags ev.content).count t
        · rw [if_pos hcp, if_pos hcp]
        · rw [if_neg hcp, if_neg hcp]
      have hzt : tagZapTimes t (zs ++ [z]) = tagZapTimes t zs ++
          List.replicate ((extractHashtags ev.content).count t) z.receipt.created_at := by
        unfold tagZapTimes
        rw [List.flatMap_append]
        simp [hev]
      have hct : tagCreatedTimes t (zs ++ [z]) = tagCreatedTimes t zs ++
          List.replicate ((extractHashtags ev.content).count t) ev.created_at := by
        unfold tagCreatedTimes
        rw [List.flatMap_append]
        simp [hev]
      rw [foldl_updateTag_find, ih]
      by_cases hc : (extractHashtags ev.content).count t = 0
      · rw [if_pos hc]
        have hocc2 : occCount t (zs ++ [z]) = occCount t zs := by
          rw [hocc, hcnt, hc]
          simp
        have hsats2 : occSats t (zs ++ [z]) = occSats t zs := by
          rw [hsats, hcnt, hc]
          simp
        have hpost2 : tagPostIds t (zs ++ [z]) = tagPostIds t zs := by
          rw [hpost, hc]
          simp
        have hzt2 : tagZapTimes t (zs ++ [z]) = tagZapTimes t zs := by
          rw [hzt, hc]
          simp
        have hct2 : tagCreatedTimes t (zs ++ [z]) = tagCreatedTimes t zs := by
          rw [hct, hc]
          simp
        rw [hocc2, hsats2, hpost2, hzt2, hct2]
      · rw [if_neg hc]
        have hcpos : 0 < (extractHashtags ev.content).count t := by omega
        by_cases hzero : occCount t zs = 0
        · rw [if_pos hzero]
          obtain ⟨hs0, hp0, hz0, hc0⟩ := occCount_zero t zs hzero
          rw [if_neg (by rw [hocc, hcnt]; omega)]
          simp only [Option.getD_none]
          rw [bumpTagN_closed _ _ _ _ hcpos]
          rw [hocc, hsats, hpost, hzt, hct, hcnt, hzero, hs0, hp0, hz0, hc0]
          simp only [emptyTagAcc, Nat.zero_add, List.nil_append, List.foldl_nil,
            if_pos hcpos]
          rfl
        · rw [if_neg hzero]
          simp only [Option.getD_some]
          rw [bumpTagN_closed _ _ _ _ hcpos]
          rw [if_neg (by rw [hocc, hcnt]; omega)]
          rw [hocc, hsats, hpost, hzt, hct, hcnt]
          simp only [if_pos hcpos]
          have hfold : ((tagPostIds t zs ++ [ev.id]).foldl addPost []) =
              addPost ((tagPostIds t zs).foldl addPost []) ev.id := by
            rw [List.foldl_append]
            rfl
          rw [hfold]

/-- C9 witness: one zap of 5 sats referencing content makes the grand
total positive with every positive record referencing content, so the
percentage sum is exactly 100. -/
theorem groupZapsByKind_percent_spec_witness :
    ((groupZapsByKind [mkZap "z1" 0 5 "a" (some (mkEvent "e1" "" 0))]).map
      (fun e => e.percent)).sum = 100 := by
  have h := groupZapsByKind_percent_spec
    [mkZap "z1" 0 5 "a" (some (mkEvent "e1" "" 0))]
  exact h.2.1.mpr ⟨by decide, by decide⟩

/-- The keys of the hashtag map evolve by appending fresh tags. -/
theorem updateTag_keys (h : String) (amt : Nat) (zt : Int) (ev : ZappedEvent)
    (acc : List (String × TagAcc)) :
    (updateTag h amt zt ev acc).map (fun kd => kd.1) =
      insertUnique (acc.map (fun kd => kd.1)) h := by
  induction acc with
  | nil => simp [updateTag, insertUnique]
  | cons kd rest ih =>
    obtain ⟨k, d⟩ := kd
    by_cases hk : k = h
    · simp [updateTag, hk, insertUnique]
    · have hne : ¬ h = k := fun he => hk he.symm
      simp only [updateTag, hk, if_false, List.map_cons, ih, insertUnique]
      by_cases hmem : h ∈ rest.map (fun kd => kd.1)
      · simp [hmem, hne]
      · simp [hmem, hne]

/-- The inner hashtag fold keeps the keys free of duplicates. -/
theorem foldl_updateTag_keys_nodup (amt : Nat) (zt : Int) (ev : ZappedEvent)
    (hs : List String) :
    ∀ acc : List (String × TagAcc), (acc.map (fun kd => kd.1)).Nodup →
      ((hs.foldl (fun a h => updateTag h amt zt ev a) acc).map
        (fun kd => kd.1)).Nodup := by
  induction hs with
  | nil => intro acc hacc; simpa using hacc
  | cons h hs ih =>
    intro acc hacc
    rw [List.foldl_cons]
    refine ih _ ?_
    rw [updateTag_keys]
    exact nodup_insertUnique _ h hacc

/-- The hashtag map keys carry no duplicates. -/
theorem hashtagData_keys_nodup (zaps : List ParsedZap) :
    ((hashtagData zaps).map (fun kd => kd.1)).Nodup := by
  suffices haux : ∀ (zs : List ParsedZap) (acc : List (String × TagAcc)),
      (acc.map (fun kd => kd.1)).Nodup →
      ((zs.foldl
        (fun acc zap =>
          match zap.zappedEvent with
          | none => acc
          | some ev =>
            (extractHashtags ev.content).foldl
              (fun acc2 h => updateTag h zap.amount zap.receipt.created_at ev acc2)
              acc)
        acc).map (fun kd => kd.1)).Nodup by
    exact haux zaps [] (by simp)
  intro zs
  induction zs with
  | nil => intro acc hacc; simpa using hacc
  | cons z zs ih =>
    intro acc hacc
    rw [List.foldl_cons]
    refine ih _ ?_
    cases hev : z.zappedEvent with
    | none => simpa using hacc
    | some ev => exact foldl_updateTag_keys_nodup _ _ _ _ acc hacc

/-- Pointwise zip of two equal replicates. -/
theorem zipWith_replicate_replicate {α β γ : Type} (f : α → β → γ) (n : Nat)
    (a : α) (b : β) :
    List.zipWith f (List.replicate n a) (List.replicate n b) =
      List.replicate n (f a b) := by
  induction n with
  | zero => rfl
  | succ n ih => simp [List.replicate_succ, ih]

/-- Sum of an integer replicate. -/
theorem sum_replicate_int (n : Nat) (x : Int) :
    (List.replicate n x).sum = (n : Int) * x := by
  induction n with
  | zero => simp
  | succ n ih =>
    rw [List.replicate_succ, List.sum_cons, ih]
    push_cast
    ring

/-- Unfolding a running integer reduce into a sum. -/
theorem foldl_add_int (l : List Int) (n : Int) :
    l.foldl (fun sum t => sum + t) n = n + l.sum := by
  induction l generalizing n with
  | nil => simp
  | cons x xs ih => simp [List.foldl_cons, ih]; omega

/-- The aligned delay list of a tag: its length is the occurrence count
and its sum is the total delay. -/
theorem tag_delays (t : String) (zaps : List ParsedZap) :
    (List.zipWith (fun zapTime created => max 0 (zapTime - created))
      (tagZapTimes t zaps) (tagCreatedTimes t zaps)).length = occCount t zaps ∧
    (List.zipWith (fun zapTime created => max 0 (zapTime - created))
      (tagZapTimes t zaps) (tagCreatedTimes t zaps)).sum = occDelaySum t zaps := by
  induction zaps with
  | nil => exact ⟨rfl, rfl⟩
  | cons z zs ih =>
    have hocc : occCount t (z :: zs) = tagOccurrencesOfZap t z + occCount t zs := by
      unfold occCount
      simp
    have hzt : tagZapTimes t (z :: zs) =
        (match z.zappedEvent with
         | some ev => List.replicate ((extractHashtags ev.content).count t)
             z.receipt.created_at
         | none => []) ++ tagZapTimes t zs := by
      unfold tagZapTimes
      simp [List.flatMap_cons]
    have hct : tagCreatedTimes t (z :: zs) =
        (match z.zappedEvent with
         | some ev => List.replicate ((extractHashtags ev.content).count t)
             ev.created_at
         | none => []) ++ tagCreatedTimes t zs := by
      unfold tagCreatedTimes
      simp [List.flatMap_cons]
    have hds : occDelaySum t (z :: zs) =
        (match z.zappedEvent with
         | some ev => (tagOccurrencesOfZap t z : Int) *
             max 0 (z.receipt.created_at - ev.created_at)
         | none => 0) + occDelaySum t zs := by
      unfold occDelaySum
      simp
    cases hev : z.zappedEvent with
    | none =>
      rw [hzt, hct, hds, hocc]
      have hcnt : tagOccurrencesOfZap t z = 0 := by
        unfold tagOccurrencesOfZap
        rw [hev]
      simp only [hev, hcnt, List.nil_append]
      constructor
      · rw [ih.1]
        simp
      · rw [ih.2]
        simp
    | some ev =>
      rw [hzt, hct, hds, hocc]
      simp only [hev]
      have hcnt : tagOccurrencesOfZap t z = (extractHashtags ev.content).count t := by
        unfold tagOccurrencesOfZap
        rw [hev]
      rw [List.zipWith_append _ _ _ _ _ (by simp)]
      rw [zipWith_replicate_replicate]
      constructor
      · rw [List.length_append, List.length_replicate, ih.1, hcnt]
      · rw [List.sum_append, sum_replicate_int, ih.2, hcnt]

/-- Membership in the hashtag analysis output. -/
theorem mem_analyzeHashtagPerformance (zaps : List ParsedZap)
    (e : HashtagPerformance) :
    e ∈ analyzeHashtagPerformance zaps ↔
      ∃ kd ∈ hashtagData zaps, 2 ≤ kd.2.zapCount ∧ e = hashtagRow kd := by
  unfold analyzeHashtagPerformance
  rw [List.mem_insertionSort, List.mem_filter]
  constructor
  · rintro ⟨hrow, hcnt⟩
    obtain ⟨kd, hkd, rfl⟩ := List.mem_map.mp hrow
    refine ⟨kd, hkd, ?_, rfl⟩
    simpa using hcnt
  · rintro ⟨kd, hkd, hcnt, rfl⟩
    refine ⟨List.mem_map_of_mem hashtagRow hkd, ?_⟩
    simpa using hcnt

/-- C8 amended: the hashtag analysis aggregates one contribution per tag
OCCURRENCE, not per record: a tag enters the output exactly when its
occurrence count over all records is at least 2 (so one record whose
content repeats a tag is enough); for every output row the zapCount is
the occurrence count, the totalSats adds the amount once per occurrence,
the postCount is the number of distinct referencing content ids, and the
average time to first zap is the occurrence-weighted mean of
Math.max(0, zapTime - contentCreatedTime). -/
theorem analyzeHashtagPerformance_spec (zaps : List ParsedZap) (t : String) :
    (t ∈ (analyzeHashtagPerformance zaps).map (fun e => e.hashtag) ↔
      2 ≤ occCount t zaps) ∧
    (∀ e ∈ analyzeHashtagPerformance zaps,
      2 ≤ occCount e.hashtag zaps ∧
      e.zapCount = occCount e.hashtag zaps ∧
      e.totalSats = occSats e.hashtag zaps ∧
      e.postCount = ((tagPostIds e.hashtag zaps).dedup).length ∧
      e.avgTimeToFirstZap =
        (occDelaySum e.hashtag zaps : ℚ) / (occCount e.hashtag zaps : ℚ)) := by
  have hentry : ∀ e ∈ analyzeHashtagPerformance zaps,
      2 ≤ occCount e.hashtag zaps ∧
      e.zapCount = occCount e.hashtag zaps ∧
      e.totalSats = occSats e.hashtag zaps ∧
      e.postCount = ((tagPostIds e.hashtag zaps).dedup).length ∧
      e.avgTimeToFirstZap =
        (occDelaySum e.hashtag zaps : ℚ) / (occCount e.hashtag zaps : ℚ) := by
    intro e he
    obtain ⟨kd, hkd, hcnt, rfl⟩ := (mem_analyzeHashtagPerformance zaps e).mp he
    have hfind : (hashtagData zaps).find? (fun x => x.1 = kd.1) = some kd :=
      find_key_eq_of_mem (fun x => x.1) (hashtagData zaps) kd
        (hashtagData_keys_nodup zaps) hkd
    have hlook : lookupTag kd.1 (hashtagData zaps) = some kd.2 := by
      unfold lookupTag
      rw [hfind]
      rfl
    rw [hashtagData_find] at hlook
    by_cases hz : occCount kd.1 zaps = 0
    · rw [if_pos hz] at hlook
      cases hlook
    · rw [if_neg hz] at hlook
      have hd2 : kd.2 =
          { totalSats := occSats kd.1 zaps,
            zapCount := occCount kd.1 zaps,
            posts := (tagPostIds kd.1 zaps).foldl addPost [],
            firstZapTimes := tagZapTimes kd.1 zaps,
            contentCreatedTimes := tagCreatedTimes kd.1 zaps } := by
        injection hlook with hinj
        exact hinj.symm
      have hhash : (hashtagRow kd).hashtag = kd.1 := rfl
      have hzc : (hashtagRow kd).zapCount = kd.2.zapCount := rfl
      have hts : (hashtagRow kd).totalSats = kd.2.totalSats := rfl
      have hpc : (hashtagRow kd).postCount = kd.2.posts.length := rfl
      have hocc2 : 2 ≤ occCount kd.1 zaps := by
        rw [hd2] at hcnt
        exact hcnt
      refine ⟨by rw [hhash]; exact hocc2,
        by rw [hhash, hzc, hd2],
        by rw [hhash, hts, hd2],
        ?_, ?_⟩
      · rw [hhash, hpc, hd2]
        show ((tagPostIds kd.1 zaps).foldl addPost []).length = _
        have haddins : ((tagPostIds kd.1 zaps).foldl addPost []) =
            ((tagPostIds kd.1 zaps).foldl insertUnique []) := rfl
        rw [haddins, length_foldl_insertUnique]
      · have havg : (hashtagRow kd).avgTimeToFirstZap =
            (if 0 < (List.zipWith (fun zapTime created => max 0 (zapTime - created))
                kd.2.firstZapTimes kd.2.contentCreatedTimes).length then
              (((List.zipWith (fun zapTime created => max 0 (zapTime - created))
                  kd.2.firstZapTimes kd.2.contentCreatedTimes).foldl
                  (fun sum t => sum + t) 0 : Int) : ℚ) /
                ((List.zipWith (fun zapTime created => max 0 (zapTime - created))
                  kd.2.firstZapTimes kd.2.contentCreatedTimes).length : ℚ)
            else 0) := rfl
        rw [hhash, havg, hd2]
        have hdel := tag_delays kd.1 zaps
        simp only at hdel
        rw [hdel.1, foldl_add_int, Int.zero_add, hdel.2]
        rw [if_pos (by omega)]
  refine ⟨?_, hentry⟩
  constructor
  · intro ht
    obtain ⟨e, he, rfl⟩ := List.mem_map.mp ht
    exact (hentry e he).1
  · intro hocc2
    have hz : ¬ occCount t zaps = 0 := by omega
    have hlook := hashtagData_find zaps t
    rw [if_neg hz] at hlook
    cases hfind : (hashtagData zaps).find? (fun kd => kd.1 = t) with
    | none =>
      unfold lookupTag at hlook
      rw [hfind] at hlook
      cases hlook
    | some kd =>
      have hmem := List.mem_of_find?_eq_some hfind
      have hkey : kd.1 = t := by
        have := List.find?_some hfind
        simpa using this
      have hd2 : kd.2 =
          { totalSats := occSats t zaps,
            zapCount := occCount t zaps,
            posts := (tagPostIds t zaps).foldl addPost [],
            firstZapTimes := tagZapTimes t zaps,
            contentCreatedTimes := tagCreatedTimes t zaps } := by
        unfold lookupTag at hlook
        rw [hfind] at hlook
        injection hlook
      have hrowmem : hashtagRow kd ∈ analyzeHashtagPerformance zaps := by
        rw [mem_analyzeHashtagPerformance]
        refine ⟨kd, hmem, ?_, rfl⟩
        rw [hd2]
        exact hocc2
      refine List.mem_map.mpr ⟨hashtagRow kd, hrowmem, ?_⟩
      show kd.1 = t
      exact hkey

/-- C8 counterexample: one single record whose content repeats the tag
twice is reported with zapCount 2 and enters the output, although only
one record references the tag: the analysis counts occurrences, not
records, so a tag appearing on only one record with one engagement is
NOT always excluded. -/
theorem analyzeHashtagPerformance_counterexample :
    (analyzeHashtagPerformance
      [mkZap "z1" 150 5 "p1" (some (mkEvent "ev1" "gm #a #a" 100))]).map
      (fun e => (e.hashtag, e.zapCount, e.postCount)) = [("#a", 2, 1)] ∧
    [mkZap "z1" 150 5 "p1" (some (mkEvent "ev1" "gm #a #a" 100))].length = 1 := by
  constructor
  · decide
  · rfl

/-- C8 witness, the scenario of the specification: two records zapping
one content tagged #bitcoin give the tag postCount 1 and zapCount 2 and
it enters the output. -/
theorem analyzeHashtagPerformance_spec_witness :
    "#bitcoin" ∈ (analyzeHashtagPerformance
      [mkZap "z1" 150 10 "p1" (some (mkEvent "ev1" "gm #bitcoin" 100)),
       mkZap "z2" 200 20 "p2" (some (mkEvent "ev1" "gm #bitcoin" 100))]).map
      (fun e => e.hashtag) ∧
    occCount "#bitcoin"
      [mkZap "z1" 150 10 "p1" (some (mkEvent "ev1" "gm #bitcoin" 100)),
       mkZap "z2" 200 20 "p2" (some (mkEvent "ev1" "gm #bitcoin" 100))] = 2 ∧
    ((tagPostIds "#bitcoin"
      [mkZap "z1" 150 10 "p1" (some (mkEvent "ev1" "gm #bitcoin" 100)),
       mkZap "z2" 200 20 "p2" (some (mkEvent "ev1" "gm #bitcoin" 100))]).dedup).length = 1 := by
  have h := analyzeHashtagPerformance_spec
    [mkZap "z1" 150 10 "p1" (some (mkEvent "ev1" "gm #bitcoin" 100)),
     mkZap "z2" 200 20 "p2" (some (mkEvent "ev1" "gm #bitcoin" 100))] "#bitcoin"
  exact ⟨h.1.mpr (by decide), by decide, by decide⟩

end Zaplytics
